import Mathlib

/-!
Verification of the forecast-transformer core (`src/lib/parsers.ts`).

JavaScript strings are shallowly embedded as `List Char` (named `Str`).
JavaScript numbers are embedded as exact rationals (`JSNum`), with the
infinities represented explicitly and `NaN` represented as `Option.none`
at the points where the source checks `isNaN`.  `Date` values are embedded
as civil-calendar day numbers (days since 1970-01-01), with the runtime
time zone taken to be UTC, so local-time and UTC accessors agree.
-/

namespace Forecast

abbrev Str := List Char

/-- JavaScript whitespace characters (the ones relevant to `trim`, `\s`
and `parseFloat`): space, tab, LF, VT, FF, CR, NBSP, BOM. -/
def jsIsWs (c : Char) : Bool :=
  c == ' ' || c == '\t' || c == '\n' || c == '\x0b' || c == '\x0c' ||
  c == '\r' || c == '\u00A0' || c == '\uFEFF'

/-- Embedding of `String.prototype.trim`. -/
def jsTrim (s : Str) : Str :=
  ((s.dropWhile jsIsWs).reverse.dropWhile jsIsWs).reverse

/-- Helper for `collapseWs`: `prevWs` records whether the previous character
was part of a whitespace run already replaced by a single space. -/
def collapseWsAux : Bool → Str → Str
  | _, [] => []
  | prevWs, c :: rest =>
    if jsIsWs c then
      if prevWs then collapseWsAux true rest
      else ' ' :: collapseWsAux true rest
    else c :: collapseWsAux false rest

/-- Embedding of `.replace(/\s+/g, ' ')`. -/
def collapseWs (s : Str) : Str := collapseWsAux false s

/-- Embedding of `.replace(/[–—]/g, '-')`. -/
def dashNorm (s : Str) : Str :=
  s.map (fun c => if c == '–' || c == '—' then '-' else c)

/-- Header normalization used throughout `parsers.ts`:
`.trim().replace(/\s+/g, ' ').replace(/[–—]/g, '-')`. -/
def normalizeHeader (s : Str) : Str := dashNorm (collapseWs (jsTrim s))

def isDigitCh (c : Char) : Bool := '0' ≤ c && c ≤ '9'

def digitVal (c : Char) : Nat := c.toNat - '0'.toNat

/-- Decimal value of a digit string (the value `parseInt` computes once the
digit run has been isolated). -/
def parseNatDec (s : Str) : Nat := s.foldl (fun a c => 10 * a + digitVal c) 0

def digitCh (n : Nat) : Char := Char.ofNat ('0'.toNat + n)

/-- Fuel-based decimal rendering of a natural number (`fuel = n + 1` always
suffices); structural so that it reduces in the kernel. -/
def natToStrAux : Nat → Nat → Str → Str
  | 0, _, acc => acc
  | fuel + 1, n, acc =>
    if n < 10 then digitCh n :: acc
    else natToStrAux fuel (n / 10) (digitCh (n % 10) :: acc)

/-- Embedding of `String(n)` for a natural number. -/
def natToStr (n : Nat) : Str := natToStrAux (n + 1) n []

/-- Embedding of `String(i)` for a JavaScript integer. -/
def intToStr (i : Int) : Str :=
  if i < 0 then '-' :: natToStr i.natAbs else natToStr i.natAbs

/-- Embedding of `.padStart(2, '0')`. -/
def pad2 (s : Str) : Str := List.replicate (2 - s.length) '0' ++ s

/-- Embedding of `String.prototype.split` with a one-character separator. -/
def splitOnCh (c : Char) : Str → List Str
  | [] => [[]]
  | x :: xs =>
    match splitOnCh c xs with
    | [] => [[]]
    | p :: ps => if x == c then [] :: p :: ps else (x :: p) :: ps

/-- Embedding of `String.prototype.replace` with a one-character pattern:
replaces only the first occurrence. -/
def replaceFirst (pat rep : Char) : Str → Str
  | [] => []
  | x :: xs => if x == pat then rep :: xs else x :: replaceFirst pat rep xs

/-- Embedding of `String.prototype.toLowerCase` on the ASCII range (the only
characters the source feeds through it that it changes). -/
def toLowerCh (c : Char) : Char :=
  if 'A' ≤ c && c ≤ 'Z' then Char.ofNat (c.toNat + 32) else c

/-! ## Calendar arithmetic

Civil-calendar conversions between `(year, month, day)` and a day number
(days since 1970-01-01), the standard era-based algorithm.  This models the
UTC date math the source performs through `Date.UTC` / `new Date(y, m, d)` /
`setDate(getDate() + 1)`. -/

def isLeap (y : Int) : Bool := y % 4 == 0 && (y % 100 != 0 || y % 400 == 0)

def daysInMonth (y : Int) (m : Nat) : Nat :=
  if m == 2 then (if isLeap y then 29 else 28)
  else if m == 4 || m == 6 || m == 9 || m == 11 then 30 else 31

/-- Day number of civil date `y-m-d` (month `1..12`; `d` may be any integer,
out-of-range days denote the correspondingly shifted date, as with
JavaScript `Date` argument normalization). -/
def daysFromCivil (y : Int) (m : Nat) (d : Int) : Int :=
  let y' : Int := if m ≤ 2 then y - 1 else y
  let era : Int := Int.fdiv y' 400
  let yoe : Nat := (y' - era * 400).toNat
  let mp : Nat := if m > 2 then m - 3 else m + 9
  let doy : Int := ((153 * mp + 2) / 5 : Nat) + (d - 1)
  let doe : Int := (yoe * 365 + yoe / 4 - yoe / 100 : Nat) + doy
  era * 146097 + doe - 719468

/-- Civil date `(y, m, d)` of a day number. -/
def civilFromDays (z : Int) : Int × Nat × Nat :=
  let z' := z + 719468
  let era : Int := Int.fdiv z' 146097
  let doe : Nat := (z' - era * 146097).toNat
  let yoe : Nat := (doe - doe / 1460 + doe / 36524 - doe / 146096) / 365
  let doy : Nat := doe - (365 * yoe + yoe / 4 - yoe / 100)
  let mp : Nat := (5 * doy + 2) / 153
  let d : Nat := doy - (153 * mp + 2) / 5 + 1
  let m : Nat := if mp < 10 then mp + 3 else mp - 9
  ((yoe : Int) + era * 400 + (if m ≤ 2 then 1 else 0), m, d)

/-- Embedding of `formatIsoDate` (month parameter zero-based, as in the
source). -/
def formatIsoDate (year : Int) (monthZeroBased : Nat) (day : Nat) : Str :=
  intToStr year ++ '-' :: pad2 (natToStr (monthZeroBased + 1)) ++
    '-' :: pad2 (natToStr day)

/-- Render a day number as `YYYY-MM-DD` (what the source does with
`formatIsoDate(d.getFullYear(), d.getMonth(), d.getDate())`). -/
def isoOfDay (z : Int) : Str :=
  match civilFromDays z with
  | (y, m, d) => formatIsoDate y (m - 1) d

/-- Embedding of `excelSerialToIso`: origin 1899-12-30, UTC math.
The source computes `dateUtcMs = Date.UTC(1899, 11, 30) + serial * 86400000`
(origin `-2209161600000` ms) and builds `new Date(dateUtcMs)`.  ECMAScript
TimeClip turns any time value with `|ms| > 8.64e15` into an Invalid Date,
whose `getUTC*` accessors are all `NaN`; `formatIsoDate` then renders
`String(NaN) = "NaN"` (which `padStart(2, '0')` leaves alone, having length
3), producing the string `"NaN-NaN-NaN"`.  Within the clip the day number is
`daysFromCivil 1899 12 30 + serial` (and `daysFromCivil 1899 12 30 = -25569`,
so `ms = day * 86400000` exactly). -/
def excelSerialToIso (serial : Int) : Str :=
  if (serial * 86400000 - 2209161600000).natAbs ≤ 8640000000000000 then
    isoOfDay (daysFromCivil 1899 12 30 + serial)
  else
    "NaN-NaN-NaN".data

/-- Day number of `new Date(year, month, day)` (month zero-based). -/
def mkLocalDate (y : Int) (monthZeroBased : Nat) (d : Nat) : Int :=
  daysFromCivil y (monthZeroBased + 1) (d : Int)

/-! ## Regex embeddings for the date formats -/

/-- Embedding of the test `/^\d{4}-\d{2}-\d{2}$/`. -/
def isoTest (s : Str) : Bool :=
  match s with
  | [a, b, c, d, x, e, f, y, g, h] =>
    isDigitCh a && isDigitCh b && isDigitCh c && isDigitCh d && x == '-' &&
    isDigitCh e && isDigitCh f && y == '-' && isDigitCh g && isDigitCh h
  | _ => false

/-- Embedding of the test `/^\d{2}\/\d{2}\/\d{4}$/` (used twice, identically,
in `isValidDateHeader`). -/
def slash22Test (s : Str) : Bool :=
  match s with
  | [a, b, x, c, d, y, e, f, g, h] =>
    isDigitCh a && isDigitCh b && x == '/' && isDigitCh c && isDigitCh d &&
    y == '/' && isDigitCh e && isDigitCh f && isDigitCh g && isDigitCh h
  | _ => false

/-- Embedding of the test `/^\d+$/`. -/
def digitsShape (s : Str) : Bool := !s.isEmpty && s.all isDigitCh

/-- The `monthMap` object of the source (`parseDate` and `parseWeekRange`
use the same one): lowercase three-letter keys to zero-based months. -/
def monthPairs : List (Str × Nat) :=
  [(['j','a','n'], 0), (['f','e','b'], 1), (['m','a','r'], 2),
   (['a','p','r'], 3), (['m','a','y'], 4), (['j','u','n'], 5),
   (['j','u','l'], 6), (['a','u','g'], 7), (['s','e','p'], 8),
   (['o','c','t'], 9), (['o','k','t'], 9), (['n','o','v'], 10),
   (['d','e','c'], 11)]

def monthMap (s : Str) : Option Nat :=
  (monthPairs.find? (fun p => p.1 == s)).map (fun p => p.2)

/-- Embedding of the match against
`/^(Jan|Feb|…|dec)\s+(\d{1,2})$/i`: returns the month token (original case)
and the day digits.  The alternation consists exactly of the three-letter
tokens whose lowercase form is a `monthMap` key, so the match succeeds
exactly when the first three characters lowercase to a key, at least one
whitespace character follows, and the remainder is one or two digits. -/
def matchMonthDay (t : Str) : Option (Str × Str) :=
  match t with
  | c0 :: c1 :: c2 :: rest =>
    if (monthMap [toLowerCh c0, toLowerCh c1, toLowerCh c2]).isSome then
      if (rest.takeWhile jsIsWs).isEmpty then none
      else
        let day := rest.dropWhile jsIsWs
        if !day.isEmpty && day.all isDigitCh && decide (day.length ≤ 2) then
          some ([c0, c1, c2], day)
        else none
    else none
  | _ => none

/-- Embedding of the test `/^(Jan|…|dec)\s+\d{1,2}$/i`. -/
def monDayTest (s : Str) : Bool := (matchMonthDay s).isSome

/-! ## Date resolver (`parseDate`) -/

/-- Optional leading sign: the sign factor and the remaining characters. -/
def jsSign : Str → Int × Str
  | '-' :: r => (-1, r)
  | '+' :: r => (1, r)
  | r => (1, r)

/-- Embedding of `parseInt(s, 10)` restricted to base-10 behavior: skip
leading whitespace, optional sign, then a digit prefix; no digits means
`NaN`, embedded as `none`. -/
def jsParseInt (s : Str) : Option Int :=
  let p := jsSign (s.dropWhile jsIsWs)
  let ds := p.2.takeWhile isDigitCh
  if ds.isEmpty then none else some (p.1 * parseNatDec ds)

/-- Validity of a calendar date, as enforced by V8 when parsing a
`"YYYY-MM-DD"` string with `new Date`. -/
def isRealDate (y : Int) (m d : Nat) : Bool :=
  1 ≤ m && m ≤ 12 && 1 ≤ d && d ≤ daysInMonth y m

/-- Embedding of `new Date(iso)` for the `YYYY-MM-DD`-shaped strings the
slash branch of `parseDate` composes: components when the string denotes a
valid calendar date, `none` for an Invalid Date. -/
def isoComponents (s : Str) : Option (Int × Nat × Nat) :=
  match s with
  | [a, b, c, d, x, e, f, y, g, h] =>
    if isDigitCh a && isDigitCh b && isDigitCh c && isDigitCh d && x == '-' &&
       isDigitCh e && isDigitCh f && y == '-' && isDigitCh g && isDigitCh h then
      let yy : Int := (parseNatDec [a, b, c, d] : Int)
      let mm := parseNatDec [e, f]
      let dd := parseNatDec [g, h]
      if isRealDate yy mm dd then some (yy, mm, dd) else none
    else none
  | _ => none

/-- `!isNaN(date.getTime()) && date.getFullYear() == parseInt(year)` for a
date built from an ISO string (UTC runtime, so `getFullYear` is the ISO
year component). -/
def validIsoWithYear (s : Str) (py : Option Int) : Bool :=
  match isoComponents s, py with
  | some (yy, _, _), some p => yy == p
  | _, _ => false

/-- The body of the slash-date branch of `parseDate`: month/day first,
then day/month; on success the returned string is
`toISOString().split('T')[0]` of the valid date, which is the composed
ISO string itself. -/
def parseSlash (a b y : Str) : Option Str :=
  let py := jsParseInt y
  let mmdd := y ++ '-' :: pad2 a ++ '-' :: pad2 b
  let ddmm := y ++ '-' :: pad2 b ++ '-' :: pad2 a
  if validIsoWithYear mmdd py then some mmdd
  else if validIsoWithYear ddmm py then some ddmm
  else none

/-- Embedding of the test-and-split of `/^\d{1,2}\/\d{1,2}\/\d{4}$/` plus
`split('/')`: a string matches exactly when it has two slashes and the
three slash-separated parts are digit runs of lengths 1–2, 1–2 and 4. -/
def slashParts (t : Str) : Option (Str × Str × Str) :=
  match splitOnCh '/' t with
  | [a, b, y] =>
    if !a.isEmpty && a.all isDigitCh && decide (a.length ≤ 2) &&
       (!b.isEmpty && b.all isDigitCh && decide (b.length ≤ 2)) &&
       (y.all isDigitCh && decide (y.length = 4)) then
      some (a, b, y)
    else none
  | _ => none

/-- Embedding of `parseDate`, branch for branch: empty input, ISO verbatim,
slash dates (falling through when neither order is valid), month-name +
day with the hard-coded year 2025 (falling through when the month lookup
fails), then bare positive serial. -/
def parseDate (s : Str) : Option Str :=
  if s.isEmpty then none
  else
    let t := jsTrim s
    if isoTest t then some t
    else
      let slashRes : Option Str :=
        match slashParts t with
        | some (a, b, y) => parseSlash a b y
        | none => none
      match slashRes with
      | some r => some r
      | none =>
        let monRes : Option Str :=
          match matchMonthDay t with
          | some (mon, day) =>
            match monthMap (mon.map toLowerCh) with
            | some m => some (formatIsoDate 2025 m (parseNatDec day))
            | none => none
          | none => none
        match monRes with
        | some r => some r
        | none =>
          if digitsShape t then
            let serial := parseNatDec t
            if 0 < serial then some (excelSerialToIso (serial : Int)) else none
          else none

/-! ## Week-range expander (`parseWeekRange`) -/

def isDashCh (c : Char) : Bool := c == '-' || c == '–' || c == '—'

/-- Read a three-letter month token (case-insensitive, `monthMap` keys). -/
def takeMonth (t : Str) : Option (Nat × Str) :=
  match t with
  | c0 :: c1 :: c2 :: rest =>
    match monthMap [toLowerCh c0, toLowerCh c1, toLowerCh c2] with
    | some m => some (m, rest)
    | none => none
  | _ => none

/-- `\s+`. -/
def takeWs1 (t : Str) : Option Str :=
  if (t.takeWhile jsIsWs).isEmpty then none else some (t.dropWhile jsIsWs)

/-- `\s*`. -/
def skipWs (t : Str) : Str := t.dropWhile jsIsWs

/-- `(\d{1,2})` in a context where the next required token is not a digit,
so the greedy run must be the full digit run. -/
def takeDigits12 (t : Str) : Option (Nat × Str) :=
  let ds := t.takeWhile isDigitCh
  if ds.isEmpty || decide (2 < ds.length) then none
  else some (parseNatDec ds, t.dropWhile isDigitCh)

/-- `/^(Mon)\s+(\d{1,2})\s*[-–—]\s*(Mon)\s+(\d{1,2})$/i`. -/
def weekPattern1 (t : Str) : Option (Nat × Nat × Nat × Nat) := do
  let (m1, t) ← takeMonth t
  let t ← takeWs1 t
  let (d1, t) ← takeDigits12 t
  let t := skipWs t
  match t with
  | c :: t =>
    if isDashCh c then do
      let t := skipWs t
      let (m2, t) ← takeMonth t
      let t ← takeWs1 t
      let (d2, t) ← takeDigits12 t
      if t.isEmpty then some (m1, d1, m2, d2) else none
    else none
  | [] => none

/-- `/^(Mon)\s+(\d{1,2})\s*[-–—]\s*(\d{1,2})$/i`. -/
def weekPattern2 (t : Str) : Option (Nat × Nat × Nat) := do
  let (m1, t) ← takeMonth t
  let t ← takeWs1 t
  let (d1, t) ← takeDigits12 t
  let t := skipWs t
  match t with
  | c :: t =>
    if isDashCh c then do
      let t := skipWs t
      let (d2, t) ← takeDigits12 t
      if t.isEmpty then some (m1, d1, d2) else none
    else none
  | [] => none

/-- The endpoint extraction of `parseWeekRange`: pattern 1 first, then
pattern 2 (same month for both ends). -/
def weekEndpoints (t : Str) : Option (Nat × Nat × Nat × Nat) :=
  match weekPattern1 t with
  | some r => some r
  | none =>
    match weekPattern2 t with
    | some (m1, d1, d2) => some (m1, d1, m1, d2)
    | none => none

/-- The date walk of `parseWeekRange`: `for (d = start; d <= end; d++)`
pushing `formatIsoDate` of each day; empty when the end precedes the
start. -/
def weekDatesRange (a b : Int) : List Str :=
  if a ≤ b then
    (List.range ((b - a).toNat + 1)).map (fun k => isoOfDay (a + (k : Int)))
  else []

/-- Embedding of `parseWeekRange`: normalize, match, then walk day by day
from `new Date(2025, startMonth, startDay)` to `new Date(2025, endMonth,
endDay)` inclusive; an empty walk yields `null`. -/
def parseWeekRange (s : Str) : Option (List Str) :=
  match weekEndpoints (dashNorm (collapseWs (jsTrim s))) with
  | none => none
  | some (sm, sd, em, ed) =>
    if (weekDatesRange (mkLocalDate 2025 sm sd) (mkLocalDate 2025 em ed)).isEmpty
    then none
    else some (weekDatesRange (mkLocalDate 2025 sm sd) (mkLocalDate 2025 em ed))

/-- Embedding of `isValidDateHeader`: re-normalize, week range first, then
the four simple formats (the `DD/MM/YYYY` and `MM/DD/YYYY` regexes in the
source are textually identical). -/
def isValidDateHeader (h : Str) : Bool :=
  if h.isEmpty then false
  else
    let n := dashNorm (collapseWs (jsTrim h))
    if (parseWeekRange n).isSome then true
    else isoTest n || slash22Test n || slash22Test n || digitsShape n || monDayTest n

/-! ## Amount resolver (`parseAmount`) -/

/-- A non-NaN JavaScript number: an exact decimal `m * 10 ^ e` or a signed
infinity.  (Finite doubles are modelled exactly; every literal the claims
evaluate is exactly representable.) -/
inductive JSNum where
  | fin (m : Int) (e : Int)
  | inf (neg : Bool)
deriving DecidableEq

/-- The numeric value of a `JSNum` (`none` for the infinities). -/
def jsNumVal : JSNum → Option ℚ
  | JSNum.fin m e => some ((m : ℚ) * (10 : ℚ) ^ e)
  | JSNum.inf _ => none

/-- Embedding of `parseFloat`: skip leading whitespace, optional sign, then
the longest prefix matching `Infinity` or `digits[.digits?][e[±]digits]` /
`.digits[e[±]digits]`; no valid prefix is `NaN`, embedded as `none`. -/
def jsParseFloat (s : Str) : Option JSNum :=
  let t := s.dropWhile jsIsWs
  let (neg, t') : Bool × Str :=
    match t with
    | '-' :: r => (true, r)
    | '+' :: r => (false, r)
    | r => (false, r)
  if ['I','n','f','i','n','i','t','y'].isPrefixOf t' then
    some (JSNum.inf neg)
  else
    let intD := t'.takeWhile isDigitCh
    let r1 := t'.dropWhile isDigitCh
    let (fracD, r2) : Str × Str :=
      match r1 with
      | '.' :: r => (r.takeWhile isDigitCh, r.dropWhile isDigitCh)
      | r => ([], r)
    let hasDot : Bool := match r1 with | '.' :: _ => true | _ => false
    if intD.isEmpty && (!hasDot || fracD.isEmpty) then none
    else
      let expVal : Int :=
        match r2 with
        | 'e' :: r | 'E' :: r =>
          let (esign, er) : Int × Str :=
            match r with
            | '-' :: rr => (-1, rr)
            | '+' :: rr => (1, rr)
            | rr => (1, rr)
          let eds := er.takeWhile isDigitCh
          if eds.isEmpty then 0 else esign * (parseNatDec eds : Int)
        | _ => 0
      let m : Int := (parseNatDec (intD ++ fracD) : Int)
      some (JSNum.fin (if neg then -m else m) (expVal - fracD.length))

/-- Embedding of `parseAmount`: falsy input is `null`; trim; empty is
`null`; replace the first comma with a dot; `parseFloat`; `NaN` is
`null`. -/
def parseAmount (s : Str) : Option JSNum :=
  if s.isEmpty then none
  else
    let t := jsTrim s
    if t.isEmpty then none
    else jsParseFloat (replaceFirst ',' '.' t)

/-- Embedding of `Number.prototype.toFixed(2)` (ECMA-262: sign split off,
then the integer `n` with `n / 100` closest to the magnitude, ties to the
larger `n`, i.e. `n = ⌊|v| * 100 + 1/2⌋`; for `|v| = a / 10 ^ k` that is
`(2 * a + 10 ^ k) / (2 * 10 ^ k)` in integer arithmetic); infinities
render as `Infinity`. -/
def jsToFixed2 : JSNum → Str
  | JSNum.inf false => ['I','n','f','i','n','i','t','y']
  | JSNum.inf true => '-' :: ['I','n','f','i','n','i','t','y']
  | JSNum.fin m e =>
    let a := m.natAbs
    let n : Nat :=
      if 0 ≤ e + 2 then a * 10 ^ (e + 2).toNat
      else
        let p := 10 ^ (-(e + 2)).toNat
        (2 * a + p) / (2 * p)
    (if m < 0 then ['-'] else []) ++
      natToStr (n / 100) ++ '.' :: pad2 (natToStr (n % 100))

/-! ## Table parser (`parseArrayData`) and row transformer (`transformData`) -/

/-- A raw spreadsheet cell: a string or a number.  (Numeric cells are
modelled as integers; the claims only exercise integral serials.) -/
inductive Cell where
  | str (s : Str)
  | num (n : Int)
deriving DecidableEq

/-- JavaScript truthiness of a cell value. -/
def cellTruthy : Cell → Bool
  | Cell.str s => !s.isEmpty
  | Cell.num n => n != 0

/-- `cell?.toString() || ''` (the `|| ''` branch only fires for the empty
string, which it maps to itself). -/
def cellToStr : Cell → Str
  | Cell.str s => s
  | Cell.num n => intToStr n

/-- The header-cell conversion at the top of `parseArrayData`: a truthy
numeric cell is rendered as an ISO date via the serial rule when the first
four characters of that ISO string parse to a year in [1900, 2100];
otherwise the cell is stringified as-is. -/
def convertHeader (h : Cell) : Str :=
  match h with
  | Cell.num n =>
    if n != 0 then
      let iso := excelSerialToIso n
      match jsParseInt (iso.take 4) with
      | some yr => if 1900 ≤ yr && yr ≤ 2100 then iso else cellToStr h
      | none => cellToStr h
    else cellToStr h
  | Cell.str _ => cellToStr h

/-- The predicate of `findCategoryIndex`:
`header && typeof header === 'string' && header.toLowerCase().trim() === 'category'`. -/
def isCategoryLabel (h : Str) : Bool :=
  !h.isEmpty && jsTrim (h.map toLowerCh) == ['c','a','t','e','g','o','r','y']

/-- Embedding of `findCategoryIndex` (`findIndex`; the `-1` sentinel is
embedded as `none`). -/
def findCategoryIndex (headers : List Str) : Option Nat :=
  headers.findIdx? isCategoryLabel

/-- The scan loop of `findDateIndices`, over the headers after the category
column (`i` is the absolute index of the current header): falsy or
blank-after-normalization headers are skipped, date-like headers are
collected (with their week-range expansion, when present), and the first
remaining header stops the scan. -/
def scanDates : List Str → Nat → List Nat × List (Nat × List Str)
  | [], _ => ([], [])
  | h :: rest, i =>
    if h.isEmpty then scanDates rest (i + 1)
    else
      let n := normalizeHeader h
      if n.isEmpty then scanDates rest (i + 1)
      else if isValidDateHeader n then
        let (is, ex) := scanDates rest (i + 1)
        match parseWeekRange n with
        | some ds => (i :: is, (i, ds) :: ex)
        | none => (i :: is, ex)
      else ([], [])

/-- Embedding of `findDateIndices`. -/
def findDateIndices (headers : List Str) (categoryIndex : Nat) :
    List Nat × List (Nat × List Str) :=
  scanDates (headers.drop (categoryIndex + 1)) (categoryIndex + 1)

structure ParsedData where
  headers : List Str
  data : List (List Str)
  categoryIndex : Nat
  dateIndices : List Nat
  expandedDates : List (Nat × List Str)
deriving DecidableEq

inductive ParseError where
  | emptyFile
  | missingCategory
  | noDateColumns
  | noDataRows
deriving DecidableEq

/-- Embedding of `parseArrayData`. -/
def parseArrayData (grid : List (List Cell)) : Except ParseError ParsedData :=
  match grid with
  | [] => Except.error ParseError.emptyFile
  | row0 :: rest =>
    let headers := row0.map convertHeader
    match findCategoryIndex headers with
    | none => Except.error ParseError.missingCategory
    | some categoryIndex =>
      let (dateIndices, expandedDates) := findDateIndices headers categoryIndex
      if dateIndices.isEmpty then Except.error ParseError.noDateColumns
      else
        let nonEmptyRows := rest.filter
          (fun row => row.any (fun cell =>
            cellTruthy cell && !(jsTrim (cellToStr cell)).isEmpty))
        if nonEmptyRows.isEmpty then Except.error ParseError.noDataRows
        else Except.ok
          { headers := headers
            data := nonEmptyRows.map (fun row => row.map cellToStr)
            categoryIndex := categoryIndex
            dateIndices := dateIndices
            expandedDates := expandedDates }

/-- Embedding of `getCategoryLeaf`. -/
def getCategoryLeaf (category : Str) : Str :=
  jsTrim ((splitOnCh '>' category).getLastD [])

structure TransformOptions where
  currency : Str
  parentId : Str
deriving DecidableEq

structure TransformedRow where
  amountCurrency : Str
  amountStringValue : Str
  date : Str
  parentId : Str
  parentType : Str
  description : Str
  metadataAtlarCategory : Str
deriving DecidableEq

/-- `parsedData.expandedDates.get(dateIndex)`. -/
def lookupED (ed : List (Nat × List Str)) (i : Nat) : Option (List Str) :=
  (ed.find? (fun p => p.1 == i)).map (fun p => p.2)

/-- The inner loop body of `transformData` for one `(row, dateIndex)` pair:
`none` when the iteration emits nothing (`continue` / unresolvable date). -/
def processCell (ed : List (Nat × List Str)) (headers : List Str)
    (opts : TransformOptions) (description : Str) (row : List Str)
    (dateIndex : Nat) : Option TransformedRow :=
  match parseAmount (row.getD dateIndex []) with
  | none => none
  | some amt =>
    let mk (d : Str) : TransformedRow :=
      { amountCurrency := opts.currency
        amountStringValue := jsToFixed2 amt
        date := d
        parentId := opts.parentId
        parentType := ['E','N','T','I','T','Y']
        description := description
        metadataAtlarCategory := description }
    match lookupED ed dateIndex with
    | some ds =>
      if !ds.isEmpty then some (mk (ds.getLastD []))
      else
        match parseDate (headers.getD dateIndex []) with
        | some d => some (mk d)
        | none => none
    | none =>
      match parseDate (headers.getD dateIndex []) with
      | some d => some (mk d)
      | none => none

/-- The outer loop body of `transformData` for one data row. -/
def processRow (pd : ParsedData) (opts : TransformOptions) (row : List Str) :
    List TransformedRow :=
  let category := jsTrim (row.getD pd.categoryIndex [])
  if category.isEmpty then []
  else
    pd.dateIndices.filterMap
      (processCell pd.expandedDates pd.headers opts (getCategoryLeaf category) row)

/-- Embedding of `transformData`. -/
def transformData (pd : ParsedData) (opts : TransformOptions) :
    List TransformedRow :=
  pd.data.flatMap (processRow pd opts)

/-! ## Output serialization (`generateCSV`, `generateExcel`) -/

/-- `Object.keys(data[0])` — the declaration order of `TransformedRow`'s
fields. -/
def outputHeaderRow : List Str :=
  ["amount.currency".data, "amount.stringValue".data, "date".data,
   "parent.id".data, "parent.type".data, "description".data,
   "metadata.atlar.category".data]

/-- `parseDate(String(row['date'])) || String(row['date'])`. -/
def normalizeDateCSV (d : Str) : Str := (parseDate d).getD d

/-- The per-row cell list `generateCSV` joins with commas. -/
def csvRowValues (r : TransformedRow) : List Str :=
  [r.amountCurrency, r.amountStringValue, normalizeDateCSV r.date,
   r.parentId, r.parentType, r.description, r.metadataAtlarCategory]

/-- The per-row cell list `generateExcel` places in the worksheet. -/
def excelRowValues (r : TransformedRow) : List Str :=
  [r.amountCurrency, r.amountStringValue, r.date,
   r.parentId, r.parentType, r.description, r.metadataAtlarCategory]

/-- The rows of the CSV output (header row plus data rows); empty input
produces no rows at all. -/
def csvRows (data : List TransformedRow) : List (List Str) :=
  if data.isEmpty then [] else outputHeaderRow :: data.map csvRowValues

/-- Embedding of `generateCSV`: the rows, each joined with commas, joined
with newlines (so the empty input yields the empty string). -/
def generateCSV (data : List TransformedRow) : Str :=
  List.intercalate ['\n'] ((csvRows data).map (List.intercalate [',']))

/-- The worksheet cell grid `generateExcel` builds (the XLSX container
around it is out of scope); the empty input yields an empty buffer,
embedded as the empty grid. -/
def excelSheetData (data : List TransformedRow) : List (List Str) :=
  if data.isEmpty then [] else outputHeaderRow :: data.map excelRowValues

/-! ## Concrete grids used by the claims -/

/-- The end-to-end grid of the spec's testable properties. -/
def gridC1 : List (List Cell) :=
  [[Cell.str "Category".data, Cell.str "2025-01-01".data,
    Cell.str "2025-01-02".data, Cell.str "2025-01-03".data],
   [Cell.str "Marketing>Ads".data, Cell.str "1200".data,
    Cell.str "800".data, Cell.str "".data],
   [Cell.str "Ops>Office".data, Cell.str "150".data,
    Cell.str "".data, Cell.str "".data],
   [Cell.str "R&D>Hosting".data, Cell.str "".data,
    Cell.str "100,50".data, Cell.str "200".data]]

def optsC1 : TransformOptions :=
  { currency := "SEK".data, parentId := "ENTITY_ID".data }

def mkOut (cur amt date pid descr : String) : TransformedRow :=
  { amountCurrency := cur.data
    amountStringValue := amt.data
    date := date.data
    parentId := pid.data
    parentType := "ENTITY".data
    description := descr.data
    metadataAtlarCategory := descr.data }

/-- C1: parsing the spec's example grid and transforming it with currency
`SEK` and parent id `ENTITY_ID` yields exactly the five expected records,
in order. -/
theorem c1_end_to_end :
    (parseArrayData gridC1).map (fun pd => transformData pd optsC1) =
      Except.ok
        [mkOut "SEK" "1200.00" "2025-01-01" "ENTITY_ID" "Ads",
         mkOut "SEK" "800.00" "2025-01-02" "ENTITY_ID" "Ads",
         mkOut "SEK" "150.00" "2025-01-01" "ENTITY_ID" "Office",
         mkOut "SEK" "100.50" "2025-01-02" "ENTITY_ID" "Hosting",
         mkOut "SEK" "200.00" "2025-01-03" "ENTITY_ID" "Hosting"] := by
  rfl

/-! ## Character-class facts -/

theorem jsIsWs_cases {c : Char} (h : jsIsWs c = true) :
    c = ' ' ∨ c = '\t' ∨ c = '\n' ∨ c = '\x0b' ∨ c = '\x0c' ∨ c = '\r' ∨
      c = '\u00A0' ∨ c = '\uFEFF' := by
  simp only [jsIsWs, Bool.or_eq_true, beq_iff_eq] at h
  tauto

theorem not_ws_of_digit {c : Char} (h : isDigitCh c = true) : jsIsWs c = false := by
  cases hw : jsIsWs c with
  | false => rfl
  | true =>
    exfalso
    rcases jsIsWs_cases hw with rfl | rfl | rfl | rfl | rfl | rfl | rfl | rfl <;>
      exact absurd h (by decide)

theorem not_ws_of_digit_dash {c : Char} (h : isDigitCh c = true ∨ c = '-') :
    jsIsWs c = false := by
  rcases h with h | rfl
  · exact not_ws_of_digit h
  · decide

theorem digit_le9 {c : Char} (h : isDigitCh c = true) : c ≤ '9' := by
  simp only [isDigitCh, Bool.and_eq_true, decide_eq_true_eq] at h
  exact h.2

theorem toLowerCh_of_digit_dash {c : Char} (h : isDigitCh c = true ∨ c = '-') :
    toLowerCh c = c := by
  rcases h with h | rfl
  · unfold toLowerCh
    rw [if_neg]
    simp only [Bool.and_eq_true, decide_eq_true_eq, not_and]
    intro hA
    exact absurd (Char.le_trans hA (digit_le9 h)) (by decide)
  · decide

/-! ## Trim and whitespace lemmas -/

theorem dropWhile_eq_self_of_head {p : Char → Bool} {s : Str}
    (h : ∀ c, s.head? = some c → p c = false) : s.dropWhile p = s := by
  cases s with
  | nil => rfl
  | cons c cs => rw [List.dropWhile_cons, if_neg (by simp [h c rfl])]

theorem jsTrim_eq_self_of_ends {s : Str}
    (h1 : ∀ c, s.head? = some c → jsIsWs c = false)
    (h2 : ∀ c, s.getLast? = some c → jsIsWs c = false) : jsTrim s = s := by
  unfold jsTrim
  rw [dropWhile_eq_self_of_head h1,
    dropWhile_eq_self_of_head (by simpa [List.head?_reverse] using h2),
    List.reverse_reverse]

theorem mem_of_getLast?_eq_some {s : Str} {c : Char} (h : s.getLast? = some c) :
    c ∈ s := by
  obtain ⟨hne, rfl⟩ := List.mem_getLast?_eq_getLast (by simpa using h)
  exact List.getLast_mem hne

theorem jsTrim_eq_self {s : Str} (h : ∀ c ∈ s, jsIsWs c = false) : jsTrim s = s :=
  jsTrim_eq_self_of_ends
    (fun c hc => h c (by cases s <;> simp_all))
    (fun c hc => h c (mem_of_getLast?_eq_some hc))

theorem jsTrim_nil : jsTrim [] = [] := rfl

/-! ## Digit-string rendering lemmas -/

theorem isDigitCh_digitCh {k : Nat} (h : k < 10) : isDigitCh (digitCh k) = true := by
  interval_cases k <;> decide

theorem natToStrAux_eq_nil {fuel n : Nat} {acc : Str}
    (h : natToStrAux fuel n acc = []) : acc = [] ∧ fuel = 0 := by
  induction fuel generalizing n acc with
  | zero => exact ⟨h, rfl⟩
  | succ fuel ih =>
    unfold natToStrAux at h
    split at h
    · exact absurd h (by simp)
    · exact absurd (ih h).1 (by simp)

theorem natToStr_ne_nil (n : Nat) : natToStr n ≠ [] := by
  intro h
  exact absurd (natToStrAux_eq_nil h).2 (by simp)

theorem mem_natToStrAux {fuel n : Nat} {acc : Str} {c : Char}
    (h : c ∈ natToStrAux fuel n acc) : isDigitCh c = true ∨ c ∈ acc := by
  induction fuel generalizing n acc with
  | zero => exact Or.inr h
  | succ fuel ih =>
    unfold natToStrAux at h
    split at h
    · rcases List.mem_cons.mp h with rfl | hc
      · exact Or.inl (isDigitCh_digitCh (by omega))
      · exact Or.inr hc
    · rcases ih h with hd | hc
      · exact Or.inl hd
      · rcases List.mem_cons.mp hc with rfl | hc'
        · exact Or.inl (isDigitCh_digitCh (Nat.mod_lt _ (by omega)))
        · exact Or.inr hc'

theorem mem_natToStr {n : Nat} {c : Char} (h : c ∈ natToStr n) :
    isDigitCh c = true := by
  rcases mem_natToStrAux h with hd | hc
  · exact hd
  · exact absurd hc (List.not_mem_nil c)

theorem mem_intToStr {i : Int} {c : Char} (h : c ∈ intToStr i) :
    isDigitCh c = true ∨ c = '-' := by
  unfold intToStr at h
  split at h
  · rcases List.mem_cons.mp h with rfl | hc
    · exact Or.inr rfl
    · exact Or.inl (mem_natToStr hc)
  · exact Or.inl (mem_natToStr h)

theorem intToStr_ne_nil (i : Int) : intToStr i ≠ [] := by
  unfold intToStr
  split
  · simp
  · exact natToStr_ne_nil _

theorem mem_pad2 {s : Str} {c : Char} (h : c ∈ pad2 s) : c = '0' ∨ c ∈ s := by
  unfold pad2 at h
  rcases List.mem_append.mp h with hr | hs
  · exact Or.inl (List.eq_of_mem_replicate hr)
  · exact Or.inr hs

theorem mem_formatIsoDate {y : Int} {mz d : Nat} {c : Char}
    (h : c ∈ formatIsoDate y mz d) : isDigitCh c = true ∨ c = '-' := by
  unfold formatIsoDate at h
  simp only [List.mem_append, List.mem_cons] at h
  rcases h with (h | rfl | h) | (rfl | h)
  · exact mem_intToStr h
  · exact Or.inr rfl
  · rcases mem_pad2 h with rfl | h'
    · exact Or.inl (by decide)
    · exact Or.inl (mem_natToStr h')
  · exact Or.inr rfl
  · rcases mem_pad2 h with rfl | h'
    · exact Or.inl (by decide)
    · exact Or.inl (mem_natToStr h')

theorem dash_mem_formatIsoDate (y : Int) (mz d : Nat) :
    '-' ∈ formatIsoDate y mz d := by
  unfold formatIsoDate
  simp

theorem formatIsoDate_ne_nil (y : Int) (mz d : Nat) :
    formatIsoDate y mz d ≠ [] := by
  intro h
  exact absurd (h ▸ dash_mem_formatIsoDate y mz d) (List.not_mem_nil _)

/-! ## Split lemmas -/

theorem splitOnCh_cons_eq {c x : Char} {xs : Str} {p : Str} {ps : List Str}
    (hs : splitOnCh c xs = p :: ps) :
    splitOnCh c (x :: xs) =
      if x = c then [] :: p :: ps else (x :: p) :: ps := by
  unfold splitOnCh
  rw [hs]
  by_cases hx : x = c
  · simp [hx]
  · simp [hx]

theorem splitOnCh_ne_nil (c : Char) (s : Str) : splitOnCh c s ≠ [] := by
  induction s with
  | nil => simp [splitOnCh]
  | cons x xs ih =>
    rcases hs : splitOnCh c xs with _ | ⟨p, ps⟩
    · exact absurd hs ih
    · rw [splitOnCh_cons_eq hs]
      split <;> simp

theorem splitOnCh_of_not_mem {c : Char} {s : Str} (h : c ∉ s) :
    splitOnCh c s = [s] := by
  induction s with
  | nil => rfl
  | cons x xs ih =>
    have ih' := ih (fun hm => h (List.mem_cons_of_mem x hm))
    rw [@splitOnCh_cons_eq c x xs xs [] (by simpa using ih'),
      if_neg (fun e => h (by rw [e]; exact List.mem_cons_self c xs))]

theorem splitOnCh_append {c : Char} {xs ys : Str} (h : c ∉ xs) :
    splitOnCh c (xs ++ c :: ys) = xs :: splitOnCh c ys := by
  induction xs with
  | nil =>
    rcases hs : splitOnCh c ys with _ | ⟨p, ps⟩
    · exact absurd hs (splitOnCh_ne_nil c ys)
    · simp only [List.nil_append]
      rw [splitOnCh_cons_eq hs, if_pos rfl]
  | cons x xs ih =>
    have hx : x ≠ c := fun e => h (e ▸ List.mem_cons_self x xs)
    have ih' := ih (fun hm => h (List.mem_cons_of_mem x hm))
    rcases hs : splitOnCh c (xs ++ c :: ys) with _ | ⟨p, ps⟩
    · exact absurd hs (splitOnCh_ne_nil c _)
    · rw [hs] at ih'
      injection ih' with hp hps
      subst hp hps
      simp only [List.cons_append]
      rw [splitOnCh_cons_eq hs, if_neg hx]

/-! ## Month-token lemmas -/

theorem monthMap_none_of_head {c0 c1 c2 : Char}
    (h : isDigitCh c0 = true ∨ c0 = '-') : monthMap [c0, c1, c2] = none := by
  unfold monthMap
  rw [List.find?_eq_none.mpr]
  · rfl
  · intro p hp
    fin_cases hp <;>
      (simp only [beq_iff_eq, List.cons.injEq, and_true]
       rintro ⟨rfl, -⟩
       revert h
       decide)

theorem monthMap_some_key {s : Str} {mi : Nat} (h : monthMap s = some mi) :
    ∃ p ∈ monthPairs, p.1 = s ∧ p.2 = mi := by
  unfold monthMap at h
  rcases hf : monthPairs.find? (fun p => p.1 == s) with _ | p
  · rw [hf] at h; exact absurd h (by simp)
  · rw [hf] at h
    refine ⟨p, List.mem_of_find?_eq_some hf, ?_, ?_⟩
    · have := List.find?_some hf
      simpa using this
    · simpa using h

theorem monthMap_head_letter {l0 l1 l2 : Char} {mi : Nat}
    (h : monthMap [l0, l1, l2] = some mi) :
    l0 = 'j' ∨ l0 = 'f' ∨ l0 = 'm' ∨ l0 = 'a' ∨ l0 = 's' ∨ l0 = 'o' ∨
      l0 = 'n' ∨ l0 = 'd' := by
  obtain ⟨p, hp, hkey, -⟩ := monthMap_some_key h
  fin_cases hp <;> (injection hkey with h0 _; simp [h0.symm])

theorem not_ws_of_lower_head {c l : Char} (hl : toLowerCh c = l)
    (hlet : l = 'j' ∨ l = 'f' ∨ l = 'm' ∨ l = 'a' ∨ l = 's' ∨ l = 'o' ∨
      l = 'n' ∨ l = 'd') : jsIsWs c = false := by
  cases hw : jsIsWs c with
  | false => rfl
  | true =>
    exfalso
    rcases jsIsWs_cases hw with rfl | rfl | rfl | rfl | rfl | rfl | rfl | rfl <;>
      (subst hl; revert hlet; decide)

theorem ne_slash_of_lower_head {c l : Char} (hl : toLowerCh c = l)
    (hlet : l = 'j' ∨ l = 'f' ∨ l = 'm' ∨ l = 'a' ∨ l = 's' ∨ l = 'o' ∨
      l = 'n' ∨ l = 'd') : c ≠ '/' := by
  rintro rfl
  subst hl
  revert hlet
  decide

theorem matchMonthDay_none_of_head {t : Str} {c0 : Char} {rest : Str}
    (ht : t = c0 :: rest) (h : isDigitCh c0 = true ∨ c0 = '-') :
    matchMonthDay t = none := by
  subst ht
  rcases rest with _ | ⟨c1, _ | ⟨c2, r⟩⟩
  · rfl
  · rfl
  · have hmm : monthMap [toLowerCh c0, toLowerCh c1, toLowerCh c2] = none := by
      rw [toLowerCh_of_digit_dash h]
      exact monthMap_none_of_head h
    simp only [matchMonthDay, hmm]
    simp

/-! ## Digit-run and shape lemmas -/

theorem digitsShape_false_of_mem {s : Str} {c : Char} (hm : c ∈ s)
    (hc : isDigitCh c = false) : digitsShape s = false := by
  unfold digitsShape
  rcases hall : s.all isDigitCh with _ | _
  · simp
  · exact absurd (List.all_eq_true.mp hall c hm) (by simp [hc])

theorem isoTest_shape {s : Str} (h : isoTest s = true) :
    ∃ a b c d e f g hh, s = [a, b, c, d, '-', e, f, '-', g, hh] ∧
      isDigitCh a = true ∧ isDigitCh b = true ∧ isDigitCh c = true ∧
      isDigitCh d = true ∧ isDigitCh e = true ∧ isDigitCh f = true ∧
      isDigitCh g = true ∧ isDigitCh hh = true := by
  unfold isoTest at h
  split at h
  case h_1 a b c d x e f y g hh =>
    simp only [Bool.and_eq_true, beq_iff_eq] at h
    obtain ⟨⟨⟨⟨⟨⟨⟨⟨⟨ha, hb⟩, hc⟩, hd⟩, hx⟩, he⟩, hf⟩, hy⟩, hg⟩, hhh⟩ := h
    subst hx hy
    exact ⟨a, b, c, d, e, f, g, hh, rfl, ha, hb, hc, hd, he, hf, hg, hhh⟩
  case h_2 => exact absurd h (by simp)

theorem isoTest_build {a b c d e f g hh : Char}
    (ha : isDigitCh a = true) (hb : isDigitCh b = true)
    (hc : isDigitCh c = true) (hd : isDigitCh d = true)
    (he : isDigitCh e = true) (hf : isDigitCh f = true)
    (hg : isDigitCh g = true) (hhh : isDigitCh hh = true) :
    isoTest [a, b, c, d, '-', e, f, '-', g, hh] = true := by
  unfold isoTest
  simp [ha, hb, hc, hd, he, hf, hg, hhh]

/-! ## `parseDate` branch lemmas -/

theorem parseDate_iso {s : Str} (hne : s.isEmpty = false)
    (hiso : isoTest (jsTrim s) = true) : parseDate s = some (jsTrim s) := by
  unfold parseDate
  simp only [hne, Bool.false_eq_true, if_false, hiso, if_true]

theorem parseDate_none_of_branches {s : Str} (hne : s.isEmpty = false)
    (hiso : isoTest (jsTrim s) = false) (hslash : slashParts (jsTrim s) = none)
    (hmon : matchMonthDay (jsTrim s) = none)
    (hdig : digitsShape (jsTrim s) = false) : parseDate s = none := by
  unfold parseDate
  simp only [hne, Bool.false_eq_true, if_false, hiso, hslash, hmon, hdig]

/-- The key normalization fact behind the CSV/worksheet agreement: any
nonempty string of digits and hyphens containing a hyphen is a fixed point
of `parseDate(s) || s` — either it is `YYYY-MM-DD`-shaped and `parseDate`
returns it verbatim, or every `parseDate` branch fails. -/
theorem normalizeDateCSV_fix {s : Str} (hne : s ≠ [])
    (hchars : ∀ c ∈ s, isDigitCh c = true ∨ c = '-') (hdash : '-' ∈ s) :
    normalizeDateCSV s = s := by
  have hne' : s.isEmpty = false := by
    cases s with
    | nil => exact absurd rfl hne
    | cons _ _ => rfl
  have htrim : jsTrim s = s :=
    jsTrim_eq_self (fun c hc => not_ws_of_digit_dash (hchars c hc))
  by_cases hiso : isoTest (jsTrim s) = true
  · unfold normalizeDateCSV
    rw [parseDate_iso hne' hiso, htrim, Option.getD_some]
  · have hiso' : isoTest (jsTrim s) = false := by
      cases h : isoTest (jsTrim s)
      · rfl
      · exact absurd h hiso
    have hnoslash : '/' ∉ s := by
      intro hm
      rcases hchars '/' hm with h | h <;> exact absurd h (by decide)
    have hslash : slashParts (jsTrim s) = none := by
      rw [htrim]
      unfold slashParts
      rw [splitOnCh_of_not_mem hnoslash]
    have hmon : matchMonthDay (jsTrim s) = none := by
      rw [htrim]
      cases s with
      | nil => exact absurd rfl hne
      | cons c0 rest =>
        exact matchMonthDay_none_of_head rfl (hchars c0 (List.mem_cons_self c0 rest))
    have hdig : digitsShape (jsTrim s) = false := by
      rw [htrim]
      exact digitsShape_false_of_mem hdash (by decide)
    unfold normalizeDateCSV
    rw [parseDate_none_of_branches hne' hiso' hslash hmon hdig, Option.getD_none]

/-- `formatIsoDate` output is a fixed point of the CSV date re-resolution. -/
theorem normalizeDateCSV_formatIsoDate (y : Int) (mz d : Nat) :
    normalizeDateCSV (formatIsoDate y mz d) = formatIsoDate y mz d :=
  normalizeDateCSV_fix (formatIsoDate_ne_nil y mz d)
    (fun _ hc => mem_formatIsoDate hc) (dash_mem_formatIsoDate y mz d)

/-- Week-range expansions consist of `formatIsoDate` strings. -/
theorem isoOfDay_shape (z : Int) : ∃ y mz d, isoOfDay z = formatIsoDate y mz d := by
  unfold isoOfDay
  rcases civilFromDays z with ⟨y, m, d⟩
  exact ⟨y, m - 1, d, rfl⟩

theorem mem_weekDatesRange_shape {a b : Int} {e : Str}
    (he : e ∈ weekDatesRange a b) : ∃ y mz d, e = formatIsoDate y mz d := by
  unfold weekDatesRange at he
  split at he
  · obtain ⟨k, -, rfl⟩ := List.mem_map.mp he
    exact isoOfDay_shape _
  · exact absurd he (List.not_mem_nil e)

/-- A successful `parseWeekRange` yields exactly the (nonempty) day walk of
its matched endpoints. -/
theorem parseWeekRange_eq {s : Str} {ds : List Str}
    (h : parseWeekRange s = some ds) :
    ∃ sm sd em ed,
      weekEndpoints (dashNorm (collapseWs (jsTrim s))) = some (sm, sd, em, ed) ∧
      ds = weekDatesRange (mkLocalDate 2025 sm sd) (mkLocalDate 2025 em ed) ∧
      ds ≠ [] := by
  unfold parseWeekRange at h
  rcases hep : weekEndpoints (dashNorm (collapseWs (jsTrim s))) with _ | ⟨sm, sd, em, ed⟩
  · rw [hep] at h; exact absurd h (by simp)
  · rw [hep] at h
    dsimp only at h
    split at h
    · exact absurd h (by simp)
    · injection h with h'
      refine ⟨sm, sd, em, ed, rfl, h'.symm, ?_⟩
      subst h'
      simp_all [List.isEmpty_iff]

/-- Week-range expansions consist of `formatIsoDate` strings. -/
theorem parseWeekRange_mem_shape {s : Str} {ds : List Str}
    (h : parseWeekRange s = some ds) {e : Str} (he : e ∈ ds) :
    ∃ y mz d, e = formatIsoDate y mz d := by
  obtain ⟨sm, sd, em, ed, -, rfl, -⟩ := parseWeekRange_eq h
  exact mem_weekDatesRange_shape he

theorem slashParts_some_shape {t a b y : Str}
    (h : slashParts t = some (a, b, y)) :
    a ≠ [] ∧ a.length ≤ 2 ∧ (∀ c ∈ a, isDigitCh c = true) ∧
    b ≠ [] ∧ b.length ≤ 2 ∧ (∀ c ∈ b, isDigitCh c = true) ∧
    y.length = 4 ∧ (∀ c ∈ y, isDigitCh c = true) := by
  unfold slashParts at h
  split at h
  case h_1 a' b' y' =>
    split at h
    case isTrue hg =>
      injection h with h'
      rw [Prod.mk.injEq, Prod.mk.injEq] at h'
      obtain ⟨rfl, rfl, rfl⟩ := h'
      simp only [Bool.and_eq_true, Bool.not_eq_true', List.isEmpty_iff,
        decide_eq_true_eq, List.all_eq_true] at hg
      obtain ⟨⟨⟨⟨ha1, ha2⟩, ha3⟩, ⟨hb1, hb2⟩, hb3⟩, hy1, hy2⟩ := hg
      refine ⟨?_, ha3, ha2, ?_, hb3, hb2, hy2, hy1⟩
      · intro e; rw [e] at ha1; exact absurd ha1 (by simp)
      · intro e; rw [e] at hb1; exact absurd hb1 (by simp)
    case isFalse => exact absurd h (by simp)
  case h_2 => exact absurd h (by simp)

theorem parseSlash_some {a b y d : Str} (h : parseSlash a b y = some d) :
    d = y ++ '-' :: pad2 a ++ '-' :: pad2 b ∨
    d = y ++ '-' :: pad2 b ++ '-' :: pad2 a := by
  unfold parseSlash at h
  dsimp only at h
  split at h
  · injection h with h'; exact Or.inl h'.symm
  · split at h
    · injection h with h'; exact Or.inr h'.symm
    · exact absurd h (by simp)

theorem mem_slashIso {a b y : Str} {c : Char}
    (ha : ∀ x ∈ a, isDigitCh x = true) (hb : ∀ x ∈ b, isDigitCh x = true)
    (hy : ∀ x ∈ y, isDigitCh x = true)
    (hc : c ∈ y ++ '-' :: pad2 a ++ '-' :: pad2 b) :
    isDigitCh c = true ∨ c = '-' := by
  simp only [List.mem_append, List.mem_cons] at hc
  rcases hc with (hc | rfl | hc) | (rfl | hc)
  · exact Or.inl (hy c hc)
  · exact Or.inr rfl
  · rcases mem_pad2 hc with rfl | hc'
    · exact Or.inl (by decide)
    · exact Or.inl (ha c hc')
  · exact Or.inr rfl
  · rcases mem_pad2 hc with rfl | hc'
    · exact Or.inl (by decide)
    · exact Or.inl (hb c hc')

theorem slashIso_ne_nil (a b y : Str) : y ++ '-' :: pad2 a ++ '-' :: pad2 b ≠ [] := by
  simp

theorem dash_mem_slashIso (a b y : Str) : '-' ∈ y ++ '-' :: pad2 a ++ '-' :: pad2 b := by
  simp

/-- Serial-branch outputs are fixed points of the CSV date re-resolution. -/
theorem excelSerial_fix (n : Int) :
    normalizeDateCSV (excelSerialToIso n) = excelSerialToIso n := by
  unfold excelSerialToIso
  split
  · obtain ⟨y, mz, dd, hsh⟩ := isoOfDay_shape (daysFromCivil 1899 12 30 + n)
    rw [hsh]
    exact normalizeDateCSV_formatIsoDate y mz dd
  · rfl

/-- Slash-branch outputs are fixed points of the CSV date re-resolution. -/
theorem parseSlash_fix {t a b y d : Str} (hsp : slashParts t = some (a, b, y))
    (hps : parseSlash a b y = some d) : normalizeDateCSV d = d := by
  obtain ⟨-, -, ha3, -, -, hb3, -, hy2⟩ := slashParts_some_shape hsp
  rcases parseSlash_some hps with rfl | rfl
  · exact normalizeDateCSV_fix (slashIso_ne_nil a b y)
      (fun c hc => mem_slashIso ha3 hb3 hy2 hc) (dash_mem_slashIso a b y)
  · exact normalizeDateCSV_fix (slashIso_ne_nil b a y)
      (fun c hc => mem_slashIso hb3 ha3 hy2 hc) (dash_mem_slashIso b a y)

/-- Every `parseDate` output is a fixed point of the CSV date
re-resolution. -/
theorem normalizeDateCSV_parseDate {s d : Str} (h : parseDate s = some d) :
    normalizeDateCSV d = d := by
  unfold parseDate at h
  dsimp only at h
  split at h
  · exact absurd h (by simp)
  · split at h
    case isTrue hiso =>
      injection h with h'
      subst h'
      obtain ⟨a, b, c', d', e, f, g, hh, hshape, hd⟩ := isoTest_shape hiso
      refine normalizeDateCSV_fix (by rw [hshape]; simp) ?_ (by rw [hshape]; simp)
      intro x hx
      rw [hshape] at hx
      simp only [List.mem_cons, List.not_mem_nil, or_false] at hx
      rcases hx with rfl | rfl | rfl | rfl | rfl | rfl | rfl | rfl | rfl | rfl <;>
        simp_all
    case isFalse =>
      rcases hsp : slashParts (jsTrim s) with _ | ⟨a, b, y⟩ <;> rw [hsp] at h <;>
        dsimp only at h
      · rcases hmd : matchMonthDay (jsTrim s) with _ | ⟨mon, day⟩ <;>
          rw [hmd] at h <;> dsimp only at h
        · split at h
          · split at h
            · injection h with h'
              subst h'
              exact excelSerial_fix _
            · exact absurd h (by simp)
          · exact absurd h (by simp)
        · rcases hmm : monthMap (mon.map toLowerCh) with _ | m <;>
            rw [hmm] at h <;> dsimp only at h
          · split at h
            · split at h
              · injection h with h'
                subst h'
                exact excelSerial_fix _
              · exact absurd h (by simp)
            · exact absurd h (by simp)
          · injection h with h'
            subst h'
            exact normalizeDateCSV_formatIsoDate 2025 m (parseNatDec day)
      · rcases hps : parseSlash a b y with _ | r <;> rw [hps] at h <;>
          dsimp only at h
        · rcases hmd : matchMonthDay (jsTrim s) with _ | ⟨mon, day⟩ <;>
            rw [hmd] at h <;> dsimp only at h
          · split at h
            · split at h
              · injection h with h'
                subst h'
                exact excelSerial_fix _
              · exact absurd h (by simp)
            · exact absurd h (by simp)
          · rcases hmm : monthMap (mon.map toLowerCh) with _ | m <;>
              rw [hmm] at h <;> dsimp only at h
            · split at h
              · split at h
                · injection h with h'
                  subst h'
                  exact excelSerial_fix _
                · exact absurd h (by simp)
              · exact absurd h (by simp)
            · injection h with h'
              subst h'
              exact normalizeDateCSV_formatIsoDate 2025 m (parseNatDec day)
        · injection h with h'
          subst h'
          exact parseSlash_fix hsp hps

/-! ## Provenance of transformer output dates -/

theorem getLastD_mem {α : Type} {l : List α} (h : l ≠ []) :
    ∀ d, l.getLastD d ∈ l := by
  induction l with
  | nil => exact absurd rfl h
  | cons x xs ih =>
    intro d
    cases hxs : xs with
    | nil => simp [List.getLastD]
    | cons y ys =>
      rw [List.getLastD_cons]
      exact List.mem_cons_of_mem x (hxs ▸ ih (by simp [hxs]) x)

theorem lookupED_mem {ed : List (Nat × List Str)} {i : Nat} {ds : List Str}
    (h : lookupED ed i = some ds) : (i, ds) ∈ ed := by
  unfold lookupED at h
  rcases hf : ed.find? (fun p => p.1 == i) with _ | p
  · rw [hf] at h; exact absurd h (by simp)
  · rw [hf] at h
    have hp1 : p.1 = i := by simpa using List.find?_some hf
    have hp2 : p.2 = ds := by simpa using h
    have : p = (i, ds) := Prod.ext hp1 hp2
    exact this ▸ List.mem_of_find?_eq_some hf

theorem scanDates_expanded :
    ∀ (l : List Str) (i0 : Nat) {j : Nat} {ds : List Str},
      (j, ds) ∈ (scanDates l i0).2 →
      ∃ h, parseWeekRange (normalizeHeader h) = some ds := by
  intro l
  induction l with
  | nil =>
    intro i0 j ds h
    exact absurd h (List.not_mem_nil _)
  | cons hd rest ih =>
    intro i0 j ds h
    unfold scanDates at h
    by_cases h1 : hd.isEmpty
    · rw [if_pos h1] at h
      exact ih _ h
    · rw [if_neg h1] at h
      by_cases h2 : (normalizeHeader hd).isEmpty
      · rw [if_pos h2] at h
        exact ih _ h
      · rw [if_neg h2] at h
        by_cases h3 : isValidDateHeader (normalizeHeader hd) = true
        · rw [if_pos h3] at h
          rcases hsc : scanDates rest (i0 + 1) with ⟨idxs, exs⟩
          rw [hsc] at h
          dsimp only at h
          rcases hpw : parseWeekRange (normalizeHeader hd) with _ | ds' <;>
            rw [hpw] at h <;> dsimp only at h
          · exact ih _ (by rw [hsc]; exact h)
          · rcases List.mem_cons.mp h with heq | hmem
            · injection heq with h1' h2'
              exact ⟨hd, by rw [hpw, h2']⟩
            · exact ih _ (by rw [hsc]; exact hmem)
        · rw [if_neg h3] at h
          exact absurd h (List.not_mem_nil _)

theorem parseArrayData_expanded {g : List (List Cell)} {pd : ParsedData}
    (hp : parseArrayData g = Except.ok pd) {i : Nat} {ds : List Str}
    (hmem : (i, ds) ∈ pd.expandedDates) :
    ∃ h, parseWeekRange (normalizeHeader h) = some ds := by
  unfold parseArrayData at hp
  rcases g with _ | ⟨row0, rest⟩
  · exact absurd hp (by simp)
  · dsimp only at hp
    rcases hfc : findCategoryIndex (row0.map convertHeader) with _ | c <;>
      rw [hfc] at hp <;> dsimp only at hp
    · exact absurd hp (by simp)
    · rcases hfd : findDateIndices (row0.map convertHeader) c with ⟨dis, exs⟩
      rw [hfd] at hp
      dsimp only at hp
      split at hp
      · exact absurd hp (by simp)
      · split at hp
        · exact absurd hp (by simp)
        · injection hp with hp'
          subst hp'
          dsimp only at hmem
          unfold findDateIndices at hfd
          exact scanDates_expanded _ _
            (show (i, ds) ∈ (scanDates ((row0.map convertHeader).drop (c + 1)) (c + 1)).2 by
              rw [hfd]; exact hmem)

theorem processCell_some_date {ed : List (Nat × List Str)} {headers : List Str}
    {opts : TransformOptions} {descr : Str} {row : List Str} {i : Nat}
    {r : TransformedRow}
    (h : processCell ed headers opts descr row i = some r) :
    (∃ ds, lookupED ed i = some ds ∧ ds ≠ [] ∧ r.date = ds.getLastD []) ∨
      parseDate (headers.getD i []) = some r.date := by
  unfold processCell at h
  rcases ha : parseAmount (row.getD i []) with _ | amt <;> rw [ha] at h <;>
    dsimp only at h
  · exact absurd h (by simp)
  · rcases hl : lookupED ed i with _ | ds <;> rw [hl] at h <;> dsimp only at h
    · rcases hpd : parseDate (headers.getD i []) with _ | dd <;> rw [hpd] at h <;>
        dsimp only at h
      · exact absurd h (by simp)
      · injection h with h'
        subst h'
        exact Or.inr rfl
    · split at h
      case isTrue hne =>
        injection h with h'
        subst h'
        refine Or.inl ⟨ds, rfl, ?_, rfl⟩
        intro e
        rw [e] at hne
        exact absurd hne (by decide)
      case isFalse =>
        rcases hpd : parseDate (headers.getD i []) with _ | dd <;> rw [hpd] at h <;>
          dsimp only at h
        · exact absurd h (by simp)
        · injection h with h'
          subst h'
          exact Or.inr rfl

theorem transformData_mem {pd : ParsedData} {opts : TransformOptions}
    {r : TransformedRow} (hr : r ∈ transformData pd opts) :
    ∃ row ∈ pd.data, ∃ i ∈ pd.dateIndices,
      processCell pd.expandedDates pd.headers opts
        (getCategoryLeaf (jsTrim (row.getD pd.categoryIndex []))) row i = some r := by
  unfold transformData at hr
  obtain ⟨row, hrow, hmem⟩ := List.mem_flatMap.mp hr
  refine ⟨row, hrow, ?_⟩
  unfold processRow at hmem
  dsimp only at hmem
  split at hmem
  · exact absurd hmem (List.not_mem_nil r)
  · obtain ⟨i, hi, hc⟩ := List.mem_filterMap.mp hmem
    exact ⟨i, hi, hc⟩

/-- Dates in transformer output (on parser-produced schemas) are fixed
points of the CSV re-resolution. -/
theorem transformData_date_fix {g : List (List Cell)} {pd : ParsedData}
    (hp : parseArrayData g = Except.ok pd) {opts : TransformOptions}
    {r : TransformedRow} (hr : r ∈ transformData pd opts) :
    normalizeDateCSV r.date = r.date := by
  obtain ⟨row, -, i, -, hc⟩ := transformData_mem hr
  rcases processCell_some_date hc with ⟨ds, hl, hne, hdate⟩ | hpd
  · obtain ⟨hdr, hpw⟩ := parseArrayData_expanded hp (lookupED_mem hl)
    obtain ⟨y, mz, dd, hsh⟩ :=
      parseWeekRange_mem_shape hpw (getLastD_mem hne ([] : Str))
    rw [hdate, hsh]
    exact normalizeDateCSV_formatIsoDate y mz dd
  · exact normalizeDateCSV_parseDate hpd

/-- The parsed schema of the C1/C8 example grid (used to discharge the
parser-provenance hypotheses at a concrete input). -/
def pdC1 : ParsedData :=
  { headers := ["Category".data, "2025-01-01".data, "2025-01-02".data,
      "2025-01-03".data]
    data := [["Marketing>Ads".data, "1200".data, "800".data, "".data],
      ["Ops>Office".data, "150".data, "".data, "".data],
      ["R&D>Hosting".data, "".data, "100,50".data, "200".data]]
    categoryIndex := 0
    dateIndices := [1, 2, 3]
    expandedDates := [] }

/-- C8: for transformer output obtained from a parser-produced schema, the
comma-separated serialization and the worksheet serialization contain the
same rows in the same column order with identical per-cell values — the
CSV's extra pass of each record's date through the Date Resolver never
changes the date. -/
theorem c8_serializations_agree {g : List (List Cell)} {pd : ParsedData}
    (hp : parseArrayData g = Except.ok pd) (opts : TransformOptions) :
    csvRows (transformData pd opts) = excelSheetData (transformData pd opts) := by
  unfold csvRows excelSheetData
  split
  · rfl
  · congr 1
    apply List.map_congr_left
    intro r hr
    unfold csvRowValues excelRowValues
    rw [transformData_date_fix hp hr]

/-- Witness for C8 at the example grid. -/
theorem c8_serializations_agree_witness :
    csvRows (transformData pdC1 optsC1) = excelSheetData (transformData pdC1 optsC1) :=
  @c8_serializations_agree gridC1 pdC1 (by rfl) optsC1

/-! ## The date-column scan (C2) -/

theorem isValidDateHeader_of_norm_empty {h : Str}
    (he : (normalizeHeader h).isEmpty = true) :
    isValidDateHeader (normalizeHeader h) = false := by
  unfold isValidDateHeader
  rw [if_pos he]

theorem scanDates_ge : ∀ (l : List Str) (i0 : Nat),
    (∀ j ∈ (scanDates l i0).1, i0 ≤ j) ∧
      List.Pairwise (· < ·) (scanDates l i0).1 := by
  intro l
  induction l with
  | nil => intro i0; exact ⟨by simp [scanDates], by simp [scanDates]⟩
  | cons hd rest ih =>
    intro i0
    unfold scanDates
    by_cases h1 : hd.isEmpty = true
    · rw [if_pos h1]
      exact ⟨fun j hj => Nat.le_of_succ_le ((ih (i0 + 1)).1 j hj), (ih (i0 + 1)).2⟩
    · rw [if_neg h1]
      by_cases h2 : (normalizeHeader hd).isEmpty = true
      · rw [if_pos h2]
        exact ⟨fun j hj => Nat.le_of_succ_le ((ih (i0 + 1)).1 j hj), (ih (i0 + 1)).2⟩
      · rw [if_neg h2]
        by_cases h3 : isValidDateHeader (normalizeHeader hd) = true
        · rw [if_pos h3]
          rcases hsc : scanDates rest (i0 + 1) with ⟨idxs, exs⟩
          have hge : ∀ j ∈ idxs, i0 + 1 ≤ j := by
            intro j hj
            exact (ih (i0 + 1)).1 j (by rw [hsc]; exact hj)
          have hpw : List.Pairwise (· < ·) idxs := by
            have := (ih (i0 + 1)).2
            rw [hsc] at this
            exact this
          constructor
          · intro j hj
            rcases hpwr : parseWeekRange (normalizeHeader hd) with _ | ds <;>
              rw [hpwr] at hj <;> dsimp only at hj <;>
              rcases List.mem_cons.mp hj with rfl | hj'
            · exact Nat.le_refl j
            · exact Nat.le_of_succ_le (hge j hj')
            · exact Nat.le_refl j
            · exact Nat.le_of_succ_le (hge j hj')
          · rcases hpwr : parseWeekRange (normalizeHeader hd) with _ | ds <;>
              dsimp only <;>
              exact List.Pairwise.cons (fun j hj => hge j hj) hpw
        · rw [if_neg h3]
          exact ⟨by simp, by simp⟩

theorem scanDates_mem_iff : ∀ (l : List Str) (i0 j : Nat),
    j ∈ (scanDates l i0).1 ↔
      ∃ k, k < l.length ∧ j = i0 + k ∧
        isValidDateHeader (normalizeHeader (l.getD k [])) = true ∧
        ∀ m, m < k →
          ((normalizeHeader (l.getD m [])).isEmpty = true ∨
            isValidDateHeader (normalizeHeader (l.getD m [])) = true) := by
  intro l
  induction l with
  | nil =>
    intro i0 j
    simp [scanDates]
  | cons hd rest ih =>
    intro i0 j
    have skipCase :
        (normalizeHeader hd).isEmpty = true →
        (j ∈ (scanDates rest (i0 + 1)).1 ↔
          ∃ k, k < (hd :: rest).length ∧ j = i0 + k ∧
            isValidDateHeader (normalizeHeader ((hd :: rest).getD k [])) = true ∧
            ∀ m, m < k →
              ((normalizeHeader ((hd :: rest).getD m [])).isEmpty = true ∨
                isValidDateHeader (normalizeHeader ((hd :: rest).getD m [])) = true)) := by
      intro hne
      rw [ih (i0 + 1) j]
      constructor
      · rintro ⟨k, hk, rfl, hv, hall⟩
        refine ⟨k + 1, by simpa using hk, by omega, by simpa using hv, ?_⟩
        intro m hm
        cases m with
        | zero => exact Or.inl (by simpa using hne)
        | succ m' => simpa using hall m' (by omega)
      · rintro ⟨k, hk, hj, hv, hall⟩
        cases k with
        | zero =>
          rw [List.getD_cons_zero] at hv
          exact absurd hv (by rw [isValidDateHeader_of_norm_empty hne]; simp)
        | succ k' =>
          refine ⟨k', by simpa using hk, by omega, by simpa using hv, ?_⟩
          intro m hm
          have := hall (m + 1) (by omega)
          simpa using this
    unfold scanDates
    by_cases h1 : hd.isEmpty = true
    · rw [if_pos h1]
      apply skipCase
      have : hd = [] := by
        cases hd with
        | nil => rfl
        | cons _ _ => exact absurd h1 (by simp)
      rw [this]
      rfl
    · rw [if_neg h1]
      by_cases h2 : (normalizeHeader hd).isEmpty = true
      · rw [if_pos h2]
        exact skipCase h2
      · rw [if_neg h2]
        by_cases h3 : isValidDateHeader (normalizeHeader hd) = true
        · rw [if_pos h3]
          rcases hsc : scanDates rest (i0 + 1) with ⟨idxs, exs⟩
          have hfst :
              j ∈ (i0 :: idxs) ↔
              ∃ k, k < (hd :: rest).length ∧ j = i0 + k ∧
                isValidDateHeader (normalizeHeader ((hd :: rest).getD k [])) = true ∧
                ∀ m, m < k →
                  ((normalizeHeader ((hd :: rest).getD m [])).isEmpty = true ∨
                    isValidDateHeader (normalizeHeader ((hd :: rest).getD m [])) = true) := by
            constructor
            · intro hj
              rcases List.mem_cons.mp hj with rfl | hj'
              · exact ⟨0, by simp, by omega, by simpa using h3, by omega⟩
              · obtain ⟨k, hk, rfl, hv, hall⟩ :=
                  (ih (i0 + 1) j).mp (by rw [hsc]; exact hj')
                refine ⟨k + 1, by simpa using hk, by omega, by simpa using hv, ?_⟩
                intro m hm
                cases m with
                | zero => exact Or.inr (by simpa using h3)
                | succ m' => simpa using hall m' (by omega)
            · rintro ⟨k, hk, hj, hv, hall⟩
              cases k with
              | zero =>
                simp only [Nat.add_zero] at hj
                exact hj ▸ List.mem_cons_self i0 idxs
              | succ k' =>
                refine List.mem_cons_of_mem i0 ?_
                have : j ∈ (scanDates rest (i0 + 1)).1 :=
                  (ih (i0 + 1) j).mpr
                    ⟨k', by simpa using hk, by omega, by simpa using hv,
                      fun m hm => by simpa using hall (m + 1) (by omega)⟩
                rw [hsc] at this
                exact this
          rcases hpwr : parseWeekRange (normalizeHeader hd) with _ | ds <;>
            dsimp only <;> exact hfst
        · rw [if_neg h3]
          constructor
          · intro hj
            exact absurd hj (by simp)
          · rintro ⟨k, hk, hj, hv, hall⟩
            cases k with
            | zero => exact absurd (by simpa using hv) (by simpa using h3)
            | succ k' =>
              have := hall 0 (by omega)
              rcases this with he | hvv
              · exact absurd (by simpa using he) (by simpa using h2)
              · exact absurd (by simpa using hvv) (by simpa using h3)

/-- C2: the date-column scan examines exactly the columns strictly to the
right of the category column, in increasing order; a column is collected
iff it is date-like and every column between it and the category column is
either blank after normalization or date-like — so the first non-empty,
non-date header ends the scan and excludes itself and everything after it,
while blank headers are skipped. -/
theorem c2_scan_characterization (headers : List Str) (c : Nat) :
    List.Pairwise (· < ·) (findDateIndices headers c).1 ∧
    ∀ i, i ∈ (findDateIndices headers c).1 ↔
      (c < i ∧ i < headers.length ∧
        isValidDateHeader (normalizeHeader (headers.getD i [])) = true ∧
        ∀ j, c < j → j < i →
          ((normalizeHeader (headers.getD j [])).isEmpty = true ∨
            isValidDateHeader (normalizeHeader (headers.getD j [])) = true)) := by
  constructor
  · exact (scanDates_ge (headers.drop (c + 1)) (c + 1)).2
  · intro i
    unfold findDateIndices
    rw [scanDates_mem_iff]
    have hgetD : ∀ k, (headers.drop (c + 1)).getD k [] = headers.getD (c + 1 + k) [] := by
      intro k
      simp [List.getD_eq_getElem?_getD, List.getElem?_drop]
    constructor
    · rintro ⟨k, hk, rfl, hv, hall⟩
      rw [List.length_drop] at hk
      refine ⟨by omega, by omega, by rw [← hgetD k]; exact hv, ?_⟩
      intro j hj1 hj2
      have := hall (j - (c + 1)) (by omega)
      rw [hgetD] at this
      have hj : c + 1 + (j - (c + 1)) = j := by omega
      rw [hj] at this
      exact this
    · rintro ⟨hci, hil, hv, hall⟩
      refine ⟨i - (c + 1), ?_, by omega, ?_, ?_⟩
      · rw [List.length_drop]; omega
      · rw [hgetD]
        have : c + 1 + (i - (c + 1)) = i := by omega
        rw [this]
        exact hv
      · intro m hm
        rw [hgetD]
        exact hall (c + 1 + m) (by omega) (by omega)

/-- Witness for C2: on a header row with a terminator between two date
headers, index 1 is collected and the later date-like index 3 is not. -/
theorem c2_scan_characterization_witness :
    1 ∈ (findDateIndices ["Category".data, "2025-01-01".data, "x".data,
        "2025-01-02".data] 0).1 ∧
    3 ∉ (findDateIndices ["Category".data, "2025-01-01".data, "x".data,
        "2025-01-02".data] 0).1 :=
  ⟨((c2_scan_characterization ["Category".data, "2025-01-01".data, "x".data,
        "2025-01-02".data] 0).2 1).mpr
      ⟨by omega, by simp, by rfl, fun j hj1 hj2 => absurd hj2 (by omega)⟩,
   fun hmem => by
    obtain ⟨-, -, -, hall⟩ :=
      ((c2_scan_characterization ["Category".data, "2025-01-01".data, "x".data,
          "2025-01-02".data] 0).2 3).mp hmem
    rcases hall 2 (by omega) (by omega) with he | hv
    · exact absurd he (by decide)
    · exact absurd hv (by decide)⟩

/-! ## Month-name resolution (C9) -/

theorem monthMap_key_chars {s : Str} {mi : Nat} (h : monthMap s = some mi) :
    ∀ c ∈ s, 97 ≤ c.toNat ∧ c.toNat ≤ 122 := by
  obtain ⟨p, hp, hkey, -⟩ := monthMap_some_key h
  subst hkey
  fin_cases hp <;> decide

theorem char_of_lower_letter {c l : Char} (hl : toLowerCh c = l)
    (h1 : 97 ≤ l.toNat) (h2 : l.toNat ≤ 122) :
    jsIsWs c = false ∧ c ≠ '/' := by
  unfold toLowerCh at hl
  split at hl
  case isTrue hA =>
    constructor
    · cases hw : jsIsWs c with
      | false => rfl
      | true =>
        exfalso
        rcases jsIsWs_cases hw with rfl | rfl | rfl | rfl | rfl | rfl | rfl | rfl <;>
          exact absurd hA (by decide)
    · rintro rfl
      exact absurd hA (by decide)
  case isFalse =>
    subst hl
    constructor
    · cases hw : jsIsWs c with
      | false => rfl
      | true =>
        exfalso
        rcases jsIsWs_cases hw with rfl | rfl | rfl | rfl | rfl | rfl | rfl | rfl <;>
          first
          | exact absurd h1 (by decide)
          | exact absurd h2 (by decide)
    · rintro rfl
      exact absurd h1 (by decide)

theorem isoTest_length {s : Str} (h : isoTest s = true) : s.length = 10 := by
  obtain ⟨a, b, c, d, e, f, g, hh, rfl, -⟩ := isoTest_shape h
  rfl

theorem takeWhile_eq_self_of_all {p : Char → Bool} {s : Str}
    (h : ∀ c ∈ s, p c = true) : s.takeWhile p = s := by
  induction s with
  | nil => rfl
  | cons x xs ih =>
    rw [List.takeWhile_cons, if_pos (h x (List.mem_cons_self x xs)),
      ih (fun c hc => h c (List.mem_cons_of_mem x hc))]

/-- Forward evaluation of `parseDate` through the month-name branch. -/
theorem parseDate_month_branch {s mon day : Str} {m : Nat}
    (hne : s.isEmpty = false) (hiso : isoTest (jsTrim s) = false)
    (hslash : slashParts (jsTrim s) = none)
    (hmd : matchMonthDay (jsTrim s) = some (mon, day))
    (hmm : monthMap (mon.map toLowerCh) = some m) :
    parseDate s = some (formatIsoDate 2025 m (parseNatDec day)) := by
  unfold parseDate
  simp only [hne, Bool.false_eq_true, if_false, hiso, hslash, hmd, hmm]

/-- C9: a header `<Mon> <D>` whose three-letter token lowercases to a
`monthMap` key and whose day part is one or two digits always resolves to
`2025-MM-DD` built by `formatIsoDate` — no validation of the day against
the month's length, and never `null`. -/
theorem c9_month_day_no_validation {c0 c1 c2 : Char} {mi : Nat} {day : Str}
    (hm : monthMap [toLowerCh c0, toLowerCh c1, toLowerCh c2] = some mi)
    (hd1 : day ≠ []) (hd2 : day.length ≤ 2)
    (hd3 : ∀ c ∈ day, isDigitCh c = true) :
    parseDate ([c0, c1, c2] ++ ' ' :: day) =
      some (formatIsoDate 2025 mi (parseNatDec day)) := by
  have hk := monthMap_key_chars hm
  have hc0 := @char_of_lower_letter c0 (toLowerCh c0) rfl
    (hk _ (by simp)).1 (hk _ (by simp)).2
  have hc1 := @char_of_lower_letter c1 (toLowerCh c1) rfl
    (hk _ (by simp)).1 (hk _ (by simp)).2
  have hc2 := @char_of_lower_letter c2 (toLowerCh c2) rfl
    (hk _ (by simp)).1 (hk _ (by simp)).2
  obtain ⟨d0, dtl, rfl⟩ : ∃ d0 dtl, day = d0 :: dtl := by
    cases day with
    | nil => exact absurd rfl hd1
    | cons d0 dtl => exact ⟨d0, dtl, rfl⟩
  set tok : Str := [c0, c1, c2] ++ ' ' :: d0 :: dtl with htok
  have hne : tok.isEmpty = false := rfl
  have htrim : jsTrim tok = tok := by
    apply jsTrim_eq_self_of_ends
    · intro c hc
      injection hc with hc'
      rw [← hc']
      exact hc0.1
    · intro c hc
      have hlast : tok.getLast? = (d0 :: dtl).getLast? := by
        rw [htok, List.getLast?_append, List.getLast?_cons_cons]
        rcases hgl : (d0 :: dtl).getLast? with _ | gl
        · exact absurd hgl (by simp)
        · rfl
      rw [hlast] at hc
      exact not_ws_of_digit (hd3 c (mem_of_getLast?_eq_some hc))
  have hiso : isoTest (jsTrim tok) = false := by
    rw [htrim]
    cases hq : isoTest tok with
    | false => rfl
    | true =>
      exfalso
      have := isoTest_length hq
      rw [htok] at this
      simp only [List.length_append, List.length_cons, List.length_nil] at this hd2
      omega
  have hnoslash : '/' ∉ tok := by
    rw [htok]
    simp only [List.mem_append, List.mem_cons, List.not_mem_nil, or_false]
    rintro ((rfl | rfl | rfl) | hx)
    · exact hc0.2 rfl
    · exact hc1.2 rfl
    · exact hc2.2 rfl
    · rcases hx with hx | rfl | hx
      · exact absurd hx (by decide)
      · exact absurd (hd3 '/' (by simp)) (by decide)
      · exact absurd (hd3 '/' (List.mem_cons_of_mem _ hx)) (by decide)
  have hslash : slashParts (jsTrim tok) = none := by
    rw [htrim]
    unfold slashParts
    rw [splitOnCh_of_not_mem hnoslash]
  have hmd : matchMonthDay (jsTrim tok) = some ([c0, c1, c2], d0 :: dtl) := by
    rw [htrim, htok]
    show matchMonthDay (c0 :: c1 :: c2 :: ' ' :: d0 :: dtl) = _
    simp only [matchMonthDay, hm]
    have hdw : List.dropWhile jsIsWs (' ' :: d0 :: dtl) = d0 :: dtl := by
      rw [List.dropWhile_cons, if_pos (by decide)]
      exact dropWhile_eq_self_of_head
        (fun c hc => by
          injection hc with hc'
          rw [← hc']
          exact not_ws_of_digit (hd3 d0 (by simp)))
    have htw : (List.takeWhile jsIsWs (' ' :: d0 :: dtl)).isEmpty = false := by
      rw [List.takeWhile_cons, if_pos (by decide)]
      rfl
    rw [if_pos (show (some mi).isSome = true from rfl),
      if_neg (by rw [htw]; simp), hdw, if_pos]
    simp only [List.isEmpty_cons, Bool.not_false, Bool.true_and, Bool.and_eq_true,
      List.all_eq_true, decide_eq_true_eq]
    exact ⟨fun c hc => hd3 c hc, hd2⟩
  have hmm : monthMap (([c0, c1, c2] : Str).map toLowerCh) = some mi := by
    simpa using hm
  exact parseDate_month_branch hne hiso hslash hmd hmm

/-- Witness for C9: `"Feb 30"` resolves to `"2025-02-30"` and `"Jan 99"`
to `"2025-01-99"`. -/
theorem c9_month_day_no_validation_witness :
    parseDate ("Feb 30".data) = some ("2025-02-30".data) ∧
    parseDate ("Jan 99".data) = some ("2025-01-99".data) :=
  ⟨(@c9_month_day_no_validation 'F' 'e' 'b' 1 ("30".data)
      (by decide) (by decide) (by decide) (by decide)).trans (by rfl),
   (@c9_month_day_no_validation 'J' 'a' 'n' 0 ("99".data)
      (by decide) (by decide) (by decide) (by decide)).trans (by rfl)⟩

/-! ## Slash-date resolution (C4) -/

theorem isoTest_dash_mem {s : Str} (h : isoTest s = true) : '-' ∈ s := by
  obtain ⟨a, b, c, d, e, f, g, hh, rfl, -⟩ := isoTest_shape h
  simp

theorem pad2_two {a : Str} (h1 : a ≠ []) (h2 : a.length ≤ 2)
    (hd : ∀ c ∈ a, isDigitCh c = true) :
    ∃ p q, pad2 a = [p, q] ∧ isDigitCh p = true ∧ isDigitCh q = true ∧
      parseNatDec [p, q] = parseNatDec a := by
  rcases a with _ | ⟨x, _ | ⟨y, _ | ⟨z, t⟩⟩⟩
  · exact absurd rfl h1
  · exact ⟨'0', x, rfl, by decide, hd x (by simp), rfl⟩
  · exact ⟨x, y, rfl, hd x (by simp), hd y (by simp), rfl⟩
  · exfalso
    simp only [List.length_cons] at h2
    omega

theorem length_eq_four {y : Str} (h : y.length = 4) :
    ∃ y1 y2 y3 y4, y = [y1, y2, y3, y4] := by
  rcases y with _ | ⟨y1, _ | ⟨y2, _ | ⟨y3, _ | ⟨y4, _ | ⟨y5, t⟩⟩⟩⟩⟩ <;>
    simp only [List.length_cons, List.length_nil] at h
  · exact absurd h (by omega)
  · exact absurd h (by omega)
  · exact absurd h (by omega)
  · exact absurd h (by omega)
  · exact ⟨y1, y2, y3, y4, rfl⟩
  · exact absurd h (by omega)

theorem jsParseInt_digits {y : Str} (h1 : y ≠ [])
    (hd : ∀ c ∈ y, isDigitCh c = true) :
    jsParseInt y = some (parseNatDec y : Int) := by
  obtain ⟨y0, yt, rfl⟩ : ∃ y0 yt, y = y0 :: yt := by
    cases y with
    | nil => exact absurd rfl h1
    | cons y0 yt => exact ⟨y0, yt, rfl⟩
  have hdig0 : isDigitCh y0 = true := hd y0 (by simp)
  have hsign : jsSign (y0 :: yt) = (1, y0 :: yt) := by
    unfold jsSign
    split
    case h_1 r heq =>
      injection heq with h0
      rw [h0] at hdig0
      exact absurd hdig0 (by decide)
    case h_2 r heq =>
      injection heq with h0
      rw [h0] at hdig0
      exact absurd hdig0 (by decide)
    case h_3 => rfl
  unfold jsParseInt
  rw [dropWhile_eq_self_of_head (fun c hc => by
    injection hc with hc'
    rw [← hc']
    exact not_ws_of_digit hdig0)]
  rw [hsign]
  dsimp only
  rw [takeWhile_eq_self_of_all hd]
  rw [if_neg (by simp)]
  rw [Int.one_mul]

theorem isoComponents_lit {y1 y2 y3 y4 p q r t : Char}
    (h1 : isDigitCh y1 = true) (h2 : isDigitCh y2 = true)
    (h3 : isDigitCh y3 = true) (h4 : isDigitCh y4 = true)
    (h5 : isDigitCh p = true) (h6 : isDigitCh q = true)
    (h7 : isDigitCh r = true) (h8 : isDigitCh t = true) :
    isoComponents [y1, y2, y3, y4, '-', p, q, '-', r, t] =
      if isRealDate (parseNatDec [y1, y2, y3, y4] : Int)
          (parseNatDec [p, q]) (parseNatDec [r, t]) = true
      then some ((parseNatDec [y1, y2, y3, y4] : Int),
        parseNatDec [p, q], parseNatDec [r, t])
      else none := by
  unfold isoComponents
  dsimp only
  rw [if_pos (by simp [h1, h2, h3, h4, h5, h6, h7, h8])]

theorem validIso_composed {a b y : Str}
    (ha1 : a ≠ []) (ha2 : a.length ≤ 2) (ha3 : ∀ c ∈ a, isDigitCh c = true)
    (hb1 : b ≠ []) (hb2 : b.length ≤ 2) (hb3 : ∀ c ∈ b, isDigitCh c = true)
    (hy1 : y.length = 4) (hy2 : ∀ c ∈ y, isDigitCh c = true) :
    validIsoWithYear (y ++ '-' :: pad2 a ++ '-' :: pad2 b) (jsParseInt y) =
      isRealDate (parseNatDec y : Int) (parseNatDec a) (parseNatDec b) := by
  obtain ⟨y1, y2, y3, y4, rfl⟩ := length_eq_four hy1
  obtain ⟨p, q, hpa, hp, hq, hpq⟩ := pad2_two ha1 ha2 ha3
  obtain ⟨r, t, hpb, hr, ht, hrt⟩ := pad2_two hb1 hb2 hb3
  rw [hpa, hpb]
  have hlit : ([y1, y2, y3, y4] : Str) ++ '-' :: [p, q] ++ '-' :: [r, t] =
      [y1, y2, y3, y4, '-', p, q, '-', r, t] := by
    simp
  rw [hlit, jsParseInt_digits (by simp) hy2]
  unfold validIsoWithYear
  rw [isoComponents_lit (hy2 y1 (by simp)) (hy2 y2 (by simp)) (hy2 y3 (by simp))
    (hy2 y4 (by simp)) hp hq hr ht]
  rw [hpq, hrt]
  by_cases hreal :
      isRealDate (parseNatDec [y1, y2, y3, y4] : Int) (parseNatDec a)
        (parseNatDec b) = true
  · rw [if_pos hreal, hreal]
    simp
  · rw [if_neg hreal]
    dsimp only
    cases hval : isRealDate (parseNatDec [y1, y2, y3, y4] : Int) (parseNatDec a)
        (parseNatDec b)
    · rfl
    · exact absurd hval hreal

/-- Forward evaluation of `parseDate` through the slash branch. -/
theorem parseDate_slash_branch {s a b y : Str} (hne : s.isEmpty = false)
    (hiso : isoTest (jsTrim s) = false)
    (hsp : slashParts (jsTrim s) = some (a, b, y))
    (hmd : matchMonthDay (jsTrim s) = none)
    (hdig : digitsShape (jsTrim s) = false) :
    parseDate s = parseSlash a b y := by
  unfold parseDate
  simp only [hne, Bool.false_eq_true, if_false, hiso, hsp, hmd, hdig]
  cases parseSlash a b y <;> rfl

/-- C4: a token `A/B/YYYY` (1–2 digit `A`, `B`; 4-digit year) resolves
month-day first: the composed `YYYY-A-B` date is returned when it is a
valid calendar date (its year automatically matches the 4-digit `YYYY`
under the UTC runtime model); otherwise the day-month order `YYYY-B-A` is
tried; if neither composes to a valid date, resolution returns `null`. -/
theorem c4_slash_resolution {a b y : Str}
    (ha1 : a ≠ []) (ha2 : a.length ≤ 2) (ha3 : ∀ c ∈ a, isDigitCh c = true)
    (hb1 : b ≠ []) (hb2 : b.length ≤ 2) (hb3 : ∀ c ∈ b, isDigitCh c = true)
    (hy1 : y.length = 4) (hy2 : ∀ c ∈ y, isDigitCh c = true) :
    parseDate (a ++ '/' :: b ++ '/' :: y) =
      if isRealDate (parseNatDec y : Int) (parseNatDec a) (parseNatDec b) = true
      then some (y ++ '-' :: pad2 a ++ '-' :: pad2 b)
      else if isRealDate (parseNatDec y : Int) (parseNatDec b) (parseNatDec a) = true
      then some (y ++ '-' :: pad2 b ++ '-' :: pad2 a)
      else none := by
  obtain ⟨a0, at', rfl⟩ : ∃ a0 at', a = a0 :: at' := by
    cases a with
    | nil => exact absurd rfl ha1
    | cons a0 at' => exact ⟨a0, at', rfl⟩
  set tok : Str := (a0 :: at') ++ '/' :: b ++ '/' :: y with htokdef
  have htokcons : tok = a0 :: (at' ++ '/' :: b ++ '/' :: y) := by
    simp [htokdef]
  have hchars : ∀ c ∈ tok, isDigitCh c = true ∨ c = '/' := by
    intro c hc
    rw [htokdef] at hc
    simp only [List.mem_append, List.mem_cons] at hc
    rcases hc with ((rfl | hc) | rfl | hc) | rfl | hc
    · exact Or.inl (ha3 _ (by simp))
    · exact Or.inl (ha3 c (List.mem_cons_of_mem _ hc))
    · exact Or.inr rfl
    · exact Or.inl (hb3 c hc)
    · exact Or.inr rfl
    · exact Or.inl (hy2 c hc)
  have hne : tok.isEmpty = false := by rw [htokcons]; rfl
  have htrim : jsTrim tok = tok := by
    apply jsTrim_eq_self
    intro c hc
    rcases hchars c hc with hdg | rfl
    · exact not_ws_of_digit hdg
    · decide
  have hiso : isoTest (jsTrim tok) = false := by
    rw [htrim]
    cases hq : isoTest tok with
    | false => rfl
    | true =>
      exfalso
      rcases hchars '-' (isoTest_dash_mem hq) with hdg | habs
      · exact absurd hdg (by decide)
      · exact absurd habs (by decide)
  have hnsa : '/' ∉ (a0 :: at') := fun hm => by
    have := ha3 '/' hm
    exact absurd this (by decide)
  have hnsb : '/' ∉ b := fun hm => by
    have := hb3 '/' hm
    exact absurd this (by decide)
  have hnsy : '/' ∉ y := fun hm => by
    have := hy2 '/' hm
    exact absurd this (by decide)
  have hsplit : splitOnCh '/' tok = [a0 :: at', b, y] := by
    have hassoc : tok = (a0 :: at') ++ '/' :: (b ++ '/' :: y) := by
      simp [htokdef]
    rw [hassoc, splitOnCh_append hnsa, splitOnCh_append hnsb,
      splitOnCh_of_not_mem hnsy]
  have hsp : slashParts (jsTrim tok) = some (a0 :: at', b, y) := by
    rw [htrim]
    unfold slashParts
    rw [hsplit]
    dsimp only
    rw [if_pos]
    simp only [Bool.and_eq_true, Bool.not_eq_true', List.all_eq_true,
      decide_eq_true_eq]
    refine ⟨⟨⟨⟨rfl, fun c hc => ha3 c hc⟩, ha2⟩, ⟨?_, fun c hc => hb3 c hc⟩, hb2⟩,
      fun c hc => hy2 c hc, hy1⟩
    cases b with
    | nil => exact absurd rfl hb1
    | cons _ _ => rfl
  have hmd : matchMonthDay (jsTrim tok) = none := by
    rw [htrim]
    exact matchMonthDay_none_of_head htokcons (Or.inl (ha3 a0 (by simp)))
  have hdig : digitsShape (jsTrim tok) = false := by
    rw [htrim]
    have hslashmem : '/' ∈ tok := by
      rw [htokdef]
      simp
    exact digitsShape_false_of_mem hslashmem (by decide)
  rw [parseDate_slash_branch hne hiso hsp hmd hdig]
  unfold parseSlash
  dsimp only
  rw [validIso_composed ha1 ha2 ha3 hb1 hb2 hb3 hy1 hy2,
    validIso_composed hb1 hb2 hb3 ha1 ha2 ha3 hy1 hy2]

/-- Witness for C4: `"13/5/2025"` is invalid month-first, so the day-month
order applies and yields `"2025-05-13"`; `"1/2/2025"` is valid month-first
and yields `"2025-01-02"`. -/
theorem c4_slash_resolution_witness :
    parseDate ("13/5/2025".data) = some ("2025-05-13".data) ∧
    parseDate ("1/2/2025".data) = some ("2025-01-02".data) :=
  ⟨(@c4_slash_resolution ("13".data) ("5".data) ("2025".data)
      (by decide) (by decide) (by decide) (by decide) (by decide) (by decide)
      (by decide) (by decide)).trans (by rfl),
   (@c4_slash_resolution ("1".data) ("2".data) ("2025".data)
      (by decide) (by decide) (by decide) (by decide) (by decide) (by decide)
      (by decide) (by decide)).trans (by rfl)⟩

/-! ## Serial headers and the year-range check (C5) -/

/-- Forward evaluation of `parseDate` through the serial branch. -/
theorem parseDate_serial_branch {s : Str} (hne : s.isEmpty = false)
    (hiso : isoTest (jsTrim s) = false) (hslash : slashParts (jsTrim s) = none)
    (hmd : matchMonthDay (jsTrim s) = none)
    (hdig : digitsShape (jsTrim s) = true)
    (hpos : 0 < parseNatDec (jsTrim s)) :
    parseDate s = some (excelSerialToIso (parseNatDec (jsTrim s) : Int)) := by
  unfold parseDate
  simp only [hne, Bool.false_eq_true, if_false, hiso, hslash, hmd]
  rw [if_pos hdig, if_pos hpos]

/-- The grid whose serial header composes to a year outside [1900, 2100]. -/
def gridC5 : List (List Cell) :=
  [[Cell.str "Category".data, Cell.num 100000],
   [Cell.str "A".data, Cell.str "5".data]]

/-- C5 counterexample: Excel serial 100000 composes to 2173-10-14, whose
year is outside [1900, 2100]; the header is left as the raw string
`"100000"`, yet column 1 still becomes a date column, so the parser does
not discard it. -/
theorem c5_counterexample :
    excelSerialToIso 100000 = "2173-10-14".data ∧
    (parseArrayData gridC5).map (fun pd => (pd.headers, pd.dateIndices)) =
      Except.ok (["Category".data, "100000".data], [1]) :=
  ⟨rfl, rfl⟩

/-- Every non-empty all-digit string with a positive value takes the serial
branch of `parseDate`. -/
theorem parseDate_digits_serial {t : Str} (hne : t ≠ [])
    (hd : ∀ c ∈ t, isDigitCh c = true) (hpos : 0 < parseNatDec t) :
    parseDate t = some (excelSerialToIso (parseNatDec t : Int)) := by
  have hne' : t.isEmpty = false := by
    cases t with
    | nil => exact absurd rfl hne
    | cons _ _ => rfl
  have htrim : jsTrim t = t :=
    jsTrim_eq_self (fun c hc => not_ws_of_digit (hd c hc))
  have hiso : isoTest (jsTrim t) = false := by
    rw [htrim]
    cases hq : isoTest t with
    | false => rfl
    | true => exact absurd (hd '-' (isoTest_dash_mem hq)) (by decide)
  have hnos : '/' ∉ t := fun hm => absurd (hd '/' hm) (by decide)
  have hslash : slashParts (jsTrim t) = none := by
    rw [htrim]
    unfold slashParts
    rw [splitOnCh_of_not_mem hnos]
  have hmd : matchMonthDay (jsTrim t) = none := by
    rw [htrim]
    cases t with
    | nil => exact absurd rfl hne
    | cons c0 rest =>
      exact matchMonthDay_none_of_head rfl (Or.inl (hd c0 (by simp)))
  have hdig : digitsShape (jsTrim t) = true := by
    rw [htrim]
    unfold digitsShape
    simp only [hne', Bool.not_false, Bool.true_and, List.all_eq_true]
    exact fun c hc => hd c hc
  have := parseDate_serial_branch hne' hiso hslash hmd hdig (by rw [htrim]; exact hpos)
  rw [htrim] at this
  exact this

/-- C5 amended: an out-of-range serial header is left unconverted (the raw
decimal string) rather than being rendered as an ISO date, but that raw
string still matches the bare-digits date format and the column still
becomes a date column; and at transform time no year-range check applies —
every positive bare-serial string resolves through `excelSerialToIso`,
never to `null`: within the JS `Date` range (serial ≤ 100025569, i.e.
`|ms| ≤ 8.64e15`) it resolves to the serial's civil date, and beyond it the
clipped Invalid Date renders as the string `"NaN-NaN-NaN"`. -/
theorem c5_serial_range_check_amended :
    convertHeader (Cell.num 100000) = "100000".data ∧
    convertHeader (Cell.num 45658) = "2025-01-01".data ∧
    isValidDateHeader ("100000".data) = true ∧
    (∀ t : Str, t ≠ [] → (∀ c ∈ t, isDigitCh c = true) → 0 < parseNatDec t →
      parseDate t = some (excelSerialToIso (parseNatDec t : Int))) ∧
    (∀ t : Str, t ≠ [] → (∀ c ∈ t, isDigitCh c = true) → 0 < parseNatDec t →
      parseNatDec t ≤ 100025569 →
      parseDate t =
        some (isoOfDay (daysFromCivil 1899 12 30 + (parseNatDec t : Int)))) ∧
    parseDate ("999999999".data) = some ("NaN-NaN-NaN".data) := by
  refine ⟨rfl, rfl, rfl,
    fun t hne hd hpos => parseDate_digits_serial hne hd hpos, ?_, by rfl⟩
  intro t hne hd hpos hle
  rw [parseDate_digits_serial hne hd hpos]
  congr 1
  unfold excelSerialToIso
  rw [if_pos (by omega)]

/-- Witness for C5 (amended): the raw serial string `"100000"` resolves at
transform time to `2173-10-14` with no range check. -/
theorem c5_serial_range_check_amended_witness :
    parseDate ("100000".data) = some ("2173-10-14".data) :=
  (c5_serial_range_check_amended.2.2.2.2.1 ("100000".data) (by decide)
    (by decide) (by decide) (by decide)).trans (by rfl)

/-! ## Duplicate category labels (C6) -/

/-- The grid with two case-insensitive "Category" headers. -/
def gridC6 : List (List Cell) :=
  [[Cell.str "Category".data, Cell.str "2025-01-01".data,
    Cell.str "Category".data, Cell.str "2025-01-02".data],
   [Cell.str "A".data, Cell.str "1".data, Cell.str "".data, Cell.str "".data]]

/-- C6 counterexample: a header row with two "Category" labels parses
successfully — no duplicate check exists. -/
theorem c6_counterexample :
    (["Category".data, "2025-01-01".data, "Category".data,
        "2025-01-02".data] : List Str).countP isCategoryLabel = 2 ∧
    (parseArrayData gridC6).map (fun pd => pd.categoryIndex) = Except.ok 0 :=
  ⟨rfl, rfl⟩

theorem findCategoryIndex_first :
    ∀ (hs : List Str) (i : Nat), findCategoryIndex hs = some i →
      isCategoryLabel (hs.getD i []) = true ∧
      ∀ j, j < i → isCategoryLabel (hs.getD j []) = false := by
  intro hs
  unfold findCategoryIndex
  induction hs with
  | nil =>
    intro i h
    exact absurd h (by simp)
  | cons x xs ih =>
    intro i h
    rw [List.findIdx?_cons] at h
    by_cases hx : isCategoryLabel x = true
    · rw [if_pos hx] at h
      injection h with h'
      subst h'
      exact ⟨hx, fun j hj => absurd hj (by omega)⟩
    · rw [if_neg hx] at h
      rw [List.findIdx?_succ] at h
      rcases ho : List.findIdx? isCategoryLabel xs with _ | i'
      · rw [ho] at h
        exact absurd h (by simp)
      · rw [ho] at h
        simp only [Option.map_some'] at h
        injection h with h'
        subst h'
        obtain ⟨h1, h2⟩ := ih i' ho
        refine ⟨by simpa using h1, ?_⟩
        intro j hj
        cases j with
        | zero =>
          simpa using (Bool.not_eq_true _).mp hx
        | succ j' =>
          simpa using h2 j' (by omega)

/-- C6 amended: the category column is the first column whose trimmed label
case-insensitively equals "Category"; a second occurrence elsewhere is not
an error — the grid with a duplicate parses, the first occurrence is
chosen, and the duplicate merely terminates the date scan like any
non-date header (the later date column at index 3 is excluded). -/
theorem c6_duplicate_category_amended :
    (∀ (hs : List Str) (i : Nat), findCategoryIndex hs = some i →
      isCategoryLabel (hs.getD i []) = true ∧
      ∀ j, j < i → isCategoryLabel (hs.getD j []) = false) ∧
    (parseArrayData gridC6).map (fun pd => (pd.categoryIndex, pd.dateIndices)) =
      Except.ok (0, [1]) :=
  ⟨findCategoryIndex_first, rfl⟩

/-- Witness for C6 (amended): the first-match rule applied at a concrete
header row where "Category" sits at index 1. -/
theorem c6_duplicate_category_amended_witness :
    isCategoryLabel ((["x".data, "Category".data] : List Str).getD 1 []) = true :=
  (c6_duplicate_category_amended.1 ["x".data, "Category".data] 1 (by rfl)).1

/-! ## Amount resolution (C7) -/

theorem dropWhile_eq_nil_of_all {p : Char → Bool} {s : Str}
    (h : ∀ c ∈ s, p c = true) : s.dropWhile p = [] := by
  induction s with
  | nil => rfl
  | cons x xs ih =>
    rw [List.dropWhile_cons, if_pos (h x (by simp))]
    exact ih (fun c hc => h c (List.mem_cons_of_mem x hc))

theorem jsTrim_all_ws {s : Str} (h : ∀ c ∈ s, jsIsWs c = true) : jsTrim s = [] := by
  unfold jsTrim
  rw [dropWhile_eq_nil_of_all h]
  rfl

/-- C7 counterexample: `parseAmount("Infinity")` returns positive infinity,
which is neither `null` nor a finite number. -/
theorem c7_counterexample :
    parseAmount ("Infinity".data) = some (JSNum.inf false) ∧
    jsNumVal (JSNum.inf false) = none :=
  ⟨rfl, rfl⟩

/-- C7 amended: the Amount Resolver returns a number (possibly an
infinity) or `null`: null/empty/whitespace-only input gives `null`; only
the first comma is replaced by a decimal point, so `"100,50"` parses to
100.5 and `"1,2,3"` to 1.2 (the prefix before the untouched second
comma); an input whose floating-point parse is `NaN` gives `null`. -/
theorem c7_amount_resolver_amended :
    (∀ s : Str, (∀ c ∈ s, jsIsWs c = true) → parseAmount s = none) ∧
    parseAmount ("100,50".data) = some (JSNum.fin 10050 (-2)) ∧
    jsNumVal (JSNum.fin 10050 (-2)) = some ((201 : ℚ) / 2) ∧
    parseAmount ("1,2,3".data) = some (JSNum.fin 12 (-1)) ∧
    jsNumVal (JSNum.fin 12 (-1)) = some ((6 : ℚ) / 5) ∧
    parseAmount ("abc".data) = none := by
  refine ⟨?_, rfl, ?_, rfl, ?_, rfl⟩
  · intro s h
    unfold parseAmount
    cases hs : s.isEmpty with
    | true => rw [if_pos rfl]
    | false =>
      rw [if_neg (by simp)]
      rw [jsTrim_all_ws h]
      rfl
  · unfold jsNumVal
    norm_num
  · unfold jsNumVal
    norm_num

/-- Witness for C7 (amended): whitespace-only input yields `null`. -/
theorem c7_amount_resolver_amended_witness :
    parseAmount ("  ".data) = none :=
  c7_amount_resolver_amended.1 ("  ".data) (by decide)

/-! ## Week-range expansion and its single representative record (C3) -/

def gridC3 : List (List Cell) :=
  [[Cell.str "Category".data, Cell.str "Oct 27 - Nov 2".data],
   [Cell.str "A".data, Cell.str "5".data]]

/-- C3: the week-range header `"Oct 27 - Nov 2"` expands to the seven
consecutive dates 2025-10-27 … 2025-11-02; every successful expansion is
the full inclusive ascending day walk between its two endpoints anchored
at year 2025; for a cell with a non-null amount in an expanded column the
transformer emits exactly one record, dated with the last expansion date;
end to end, the example grid emits a single record dated 2025-11-02. -/
theorem c3_week_range :
    parseWeekRange ("Oct 27 - Nov 2".data) = some
      ["2025-10-27".data, "2025-10-28".data, "2025-10-29".data,
       "2025-10-30".data, "2025-10-31".data, "2025-11-01".data,
       "2025-11-02".data] ∧
    (∀ (s : Str) (ds : List Str), parseWeekRange s = some ds →
      ds ≠ [] ∧
      ∃ sm sd em ed,
        weekEndpoints (dashNorm (collapseWs (jsTrim s))) = some (sm, sd, em, ed) ∧
        mkLocalDate 2025 sm sd ≤ mkLocalDate 2025 em ed ∧
        ds = (List.range
            ((mkLocalDate 2025 em ed - mkLocalDate 2025 sm sd).toNat + 1)).map
          (fun k => isoOfDay (mkLocalDate 2025 sm sd + (k : Int)))) ∧
    (∀ (ed : List (Nat × List Str)) (headers : List Str)
        (opts : TransformOptions) (descr : Str) (row : List Str) (i : Nat)
        (ds : List Str) (amt : JSNum),
      lookupED ed i = some ds → ds ≠ [] →
      parseAmount (row.getD i []) = some amt →
      processCell ed headers opts descr row i = some
        { amountCurrency := opts.currency
          amountStringValue := jsToFixed2 amt
          date := ds.getLastD []
          parentId := opts.parentId
          parentType := "ENTITY".data
          description := descr
          metadataAtlarCategory := descr }) ∧
    (parseArrayData gridC3).map
        (fun pd => transformData pd ⟨"SEK".data, "P".data⟩) =
      Except.ok [mkOut "SEK" "5.00" "2025-11-02" "P" "A"] := by
  refine ⟨rfl, ?_, ?_, rfl⟩
  · intro s ds h
    obtain ⟨sm, sd, em, ed, hep, hds, hne⟩ := parseWeekRange_eq h
    refine ⟨hne, sm, sd, em, ed, hep, ?_, ?_⟩
    · by_contra hab
      rw [hds] at hne
      unfold weekDatesRange at hne
      rw [if_neg hab] at hne
      exact hne rfl
    · have hab : mkLocalDate 2025 sm sd ≤ mkLocalDate 2025 em ed := by
        by_contra hab
        rw [hds] at hne
        unfold weekDatesRange at hne
        rw [if_neg hab] at hne
        exact hne rfl
      rw [hds]
      unfold weekDatesRange
      rw [if_pos hab]
  · intro ed headers opts descr row i ds amt hl hne hamt
    unfold processCell
    rw [hamt, hl]
    dsimp only
    rw [if_pos (by simp [List.isEmpty_iff, hne])]

/-- Witness for C3: the general conjuncts applied at `"Nov 3-9"` and at a
concrete expanded cell. -/
theorem c3_week_range_witness :
    ((["2025-11-03".data, "2025-11-04".data, "2025-11-05".data,
        "2025-11-06".data, "2025-11-07".data, "2025-11-08".data,
        "2025-11-09".data] : List Str) ≠ [] ∧
      ∃ sm sd em ed,
        weekEndpoints (dashNorm (collapseWs (jsTrim ("Nov 3-9".data)))) =
          some (sm, sd, em, ed) ∧
        mkLocalDate 2025 sm sd ≤ mkLocalDate 2025 em ed ∧
        (["2025-11-03".data, "2025-11-04".data, "2025-11-05".data,
          "2025-11-06".data, "2025-11-07".data, "2025-11-08".data,
          "2025-11-09".data] : List Str) = (List.range
            ((mkLocalDate 2025 em ed - mkLocalDate 2025 sm sd).toNat + 1)).map
          (fun k => isoOfDay (mkLocalDate 2025 sm sd + (k : Int)))) ∧
    processCell [(1, ["2025-11-02".data])] ["Category".data, "x".data]
        ⟨"SEK".data, "P".data⟩ ("A".data) ["A".data, "5".data] 1 = some
      { amountCurrency := "SEK".data
        amountStringValue := jsToFixed2 (JSNum.fin 5 0)
        date := "2025-11-02".data
        parentId := "P".data
        parentType := "ENTITY".data
        description := "A".data
        metadataAtlarCategory := "A".data } :=
  ⟨c3_week_range.2.1 ("Nov 3-9".data) _ (by rfl),
   c3_week_range.2.2.1 [(1, ["2025-11-02".data])] ["Category".data, "x".data]
     ⟨"SEK".data, "P".data⟩ ("A".data) ["A".data, "5".data] 1
     ["2025-11-02".data] (JSNum.fin 5 0) (by rfl) (by simp) (by rfl)⟩

/-! ## CSV serialization without quoting (C10) -/

theorem intercalate_cons_cons (c : Char) (p : Str) (q : Str) (rest : List Str) :
    List.intercalate [c] (p :: q :: rest) =
      p ++ c :: List.intercalate [c] (q :: rest) := by
  unfold List.intercalate
  rw [List.intersperse_cons_cons]
  simp

theorem splitOnCh_sep_append (c : Char) (xs ys : Str) :
    splitOnCh c (xs ++ c :: ys) = splitOnCh c xs ++ splitOnCh c ys := by
  induction xs with
  | nil =>
    rcases hs : splitOnCh c ys with _ | ⟨p, ps⟩
    · exact absurd hs (splitOnCh_ne_nil c ys)
    · simp only [List.nil_append]
      rw [splitOnCh_cons_eq hs, if_pos rfl]
      simp [splitOnCh]
  | cons x xs ih =>
    rcases hs : splitOnCh c (xs ++ c :: ys) with _ | ⟨p, ps⟩
    · exact absurd hs (splitOnCh_ne_nil c _)
    · rcases hx : splitOnCh c xs with _ | ⟨p', ps'⟩
      · exact absurd hx (splitOnCh_ne_nil c xs)
      · rw [hs] at ih
        rw [hx] at ih
        simp only [List.cons_append] at ih ⊢
        rw [splitOnCh_cons_eq hs]
        by_cases hxc : x = c
        · rw [if_pos hxc, splitOnCh_cons_eq hx, if_pos hxc]
          simp only [List.cons_append]
          injection ih with hp hps
          rw [hp, hps]
        · rw [if_neg hxc, splitOnCh_cons_eq hx, if_neg hxc]
          simp only [List.cons_append]
          injection ih with hp hps
          rw [hp, hps]

theorem length_splitOnCh_pos (c : Char) (s : Str) : 0 < (splitOnCh c s).length := by
  rcases hs : splitOnCh c s with _ | ⟨p, ps⟩
  · exact absurd hs (splitOnCh_ne_nil c s)
  · simp

theorem two_le_splitOnCh_of_mem {c : Char} {s : Str} (h : c ∈ s) :
    2 ≤ (splitOnCh c s).length := by
  obtain ⟨xs, ys, rfl⟩ := List.append_of_mem h
  rw [splitOnCh_sep_append]
  have h1 := length_splitOnCh_pos c xs
  have h2 := length_splitOnCh_pos c ys
  rw [List.length_append]
  omega

theorem splitOnCh_intercalate (c : Char) :
    ∀ ps : List Str, ps ≠ [] →
      splitOnCh c (List.intercalate [c] ps) = ps.flatMap (splitOnCh c) := by
  intro ps
  induction ps with
  | nil => intro h; exact absurd rfl h
  | cons p rest ih =>
    intro _
    cases rest with
    | nil => simp [List.intercalate]
    | cons q rest' =>
      rw [intercalate_cons_cons, splitOnCh_sep_append, ih (by simp)]
      simp

theorem flatMap_split_len_ge (c : Char) :
    ∀ l : List Str, l.length ≤ (l.flatMap (splitOnCh c)).length := by
  intro l
  induction l with
  | nil => simp
  | cons x xs ih =>
    rw [List.flatMap_cons, List.length_append, List.length_cons]
    have := length_splitOnCh_pos c x
    omega

/-- A CSV row record whose description (and hence category trace) contains
a comma. -/
def rC10 : TransformedRow := mkOut "SEK" "5.00" "2025-01-01" "P" "a,b"

/-- C10: the CSV serializer performs no quoting or escaping — the empty
record list serializes to the empty string with no header line; a record
whose fields contain commas produces a line with more than seven
comma-separated columns (the concrete record with description `"a,b"`
yields nine); in general any record with a comma inside some field value
splits into more than seven columns. -/
theorem c10_csv_no_escaping :
    generateCSV [] = [] ∧
    generateCSV [rC10] =
      ("amount.currency,amount.stringValue,date,parent.id,parent.type," ++
        "description,metadata.atlar.category\n" ++
        "SEK,5.00,2025-01-01,P,ENTITY,a,b,a,b").data ∧
    (splitOnCh ',' (List.intercalate [','] (csvRowValues rC10))).length = 9 ∧
    ∀ (r : TransformedRow), ∀ cell ∈ csvRowValues r, ',' ∈ cell →
      7 < (splitOnCh ',' (List.intercalate [','] (csvRowValues r))).length := by
  refine ⟨rfl, rfl, rfl, ?_⟩
  intro r cell hcell hcomma
  have hne : csvRowValues r ≠ [] := by
    unfold csvRowValues
    simp
  obtain ⟨l1, l2, heq⟩ := List.append_of_mem hcell
  rw [splitOnCh_intercalate ',' _ hne, heq, List.flatMap_append, List.flatMap_cons,
    List.length_append, List.length_append]
  have h1 := flatMap_split_len_ge ',' l1
  have h2 := flatMap_split_len_ge ',' l2
  have hc := two_le_splitOnCh_of_mem hcomma
  have hlen : (csvRowValues r).length = 7 := rfl
  rw [heq] at hlen
  simp only [List.length_append, List.length_cons] at hlen
  omega

/-- Witness for C10: the general comma conjunct applied at the concrete
comma-carrying record. -/
theorem c10_csv_no_escaping_witness :
    7 < (splitOnCh ',' (List.intercalate [','] (csvRowValues rC10))).length :=
  c10_csv_no_escaping.2.2.2 rC10 ("a,b".data) (by simp [csvRowValues, rC10, mkOut])
    (by decide)

end Forecast